import Mathlib

/-!
# ISO 20022 pain.001 transaction generator: embedding and properties

A shallow embedding of `Iso20022TransactionsGenerator` (party loading, random
sampling, XML rendering, batch generation) together with the properties
proved about it.

Modelling conventions.

* `std::string` is `List Char`; a string literal of the source is written
  `"...".toList`.
* `uint64_t` / `size_t` values are naturals reduced modulo `2 ^ 64` where the
  source computes with them.
* `double` amounts are the exact rational value of a finite double.
* Randomness and the clock are an oracle `Env`: the `k`-th draw made through a
  `Randomizers` object and the `k`-th clock read are arbitrary functions of
  `k`.  A state records how many draws and clock reads were made.
* The `do ... while` loop of `GenerateRandomTransaction` is run with a fuel
  (a bound on the number of iterations); `Outcome.running` is the report that
  the loop is still running when the fuel is spent.
-/

namespace Iso20022

/-! ## Definitions

### Library functions the source uses -/

/-- The function `std::to_string` on an unsigned integer: its decimal digits. -/
def to_string (n : Nat) : List Char :=
  Nat.toDigits 10 n

/-- Rounding of `printf`: to the nearest integer, ties to the even one,
applied to the exact value. -/
def roundHalfEven (q : ℚ) : Int :=
  let f := ⌊q⌋
  let r := q - f
  if r < 1 / 2 then f
  else if 1 / 2 < r then f + 1
  else if f % 2 = 0 then f
  else f + 1

/-- The full text `printf` produces for the conversion `%.2f`: an optional
minus sign, the integer part, a point and two digits. -/
def printfFixed2 (amount : ℚ) : List Char :=
  let cents := (roundHalfEven (|amount| * 100)).toNat
  (if amount < 0 then ['-'] else [])
    ++ Nat.toDigits 10 (cents / 100)
    ++ ['.', Nat.digitChar (cents / 10 % 10), Nat.digitChar (cents % 10)]

/-- The call `std::snprintf(buf, size, ...)`: at most `size - 1` characters of the
formatted text are stored in the buffer. -/
def snprintf (size : Nat) (formatted : List Char) : List Char :=
  formatted.take (size - 1)

/-! ### Party.h, Party.cpp -/

/-- The class `Party`: a name and an IBAN. -/
structure Party where
  name : List Char
  iban : List Char
deriving DecidableEq

namespace Party

/-- The accessor `Party::getName`. -/
def getName (p : Party) : List Char := p.name

/-- The accessor `Party::getIban`. -/
def getIban (p : Party) : List Char := p.iban

end Party

/-! ### PartiesList.cpp -/

/-- An input stream (`std::ifstream`, `std::stringstream`): the characters
not read yet and the two state bits the code depends on. -/
structure IStream where
  buf : List Char
  eofbit : Bool
  failbit : Bool
deriving DecidableEq

/-- A stream freshly opened on a text. -/
def IStream.open (text : List Char) : IStream :=
  { buf := text, eofbit := false, failbit := false }

/-- Conversion of a stream to `bool` in a condition: `!fail()`. -/
def IStream.ok (s : IStream) : Bool := !s.failbit

/-- Characters of `buf` up to the first `delim`: the text before it and,
when a delimiter is present, the text after it. -/
def scanDelim (delim : Char) : List Char → List Char × Option (List Char)
  | [] => ([], none)
  | c :: cs =>
    if c = delim then ([], some cs)
    else
      let r := scanDelim delim cs
      (c :: r.1, r.2)

/-- The function `std::getline(is, str, delim)`.  When the stream is not good on entry the
fail bit is set and `str` keeps its value.  Otherwise `str` is cleared and
filled up to the delimiter, which is extracted and dropped; reaching the end
of the input sets the eof bit, and the fail bit too when nothing at all was
extracted. -/
def getline (is : IStream) (str : List Char) (delim : Char) : IStream × List Char :=
  if is.eofbit || is.failbit then
    ({ is with failbit := true }, str)
  else
    match scanDelim delim is.buf with
    | (text, some rest) => ({ is with buf := rest }, text)
    | (text, none) =>
      ({ buf := [], eofbit := true, failbit := is.buf.isEmpty }, text)

/-- Body of the `while (std::getline(file, line))` loop of
`PartiesList::InitParties`; `gas` bounds the number of iterations. -/
def InitPartiesLoop : Nat → IStream → List Char → List Party → List Party
  | 0, _, _, parties => parties
  | gas + 1, file, line, parties =>
    let r := getline file line '\n'
    if r.1.ok then
      let line := r.2
      if line.isEmpty then InitPartiesLoop gas r.1 line parties
      else
        let ss := IStream.open line
        let r1 := getline ss [] ','
        if r1.1.ok then
          let r2 := getline r1.1 [] '\n'
          if r2.1.ok then
            InitPartiesLoop gas r.1 line (parties ++ [Party.mk r1.2 r2.2])
          else InitPartiesLoop gas r.1 line parties
        else InitPartiesLoop gas r.1 line parties
    else parties

/-- The function `PartiesList::InitParties`: `none` is a file that cannot be opened, which
leaves the list empty.  Every iteration that does not end the loop removes at
least one character or sets the eof bit, so `length + 2` iterations are
enough. -/
def InitParties (file : Option (List Char)) : List Party :=
  match file with
  | none => []
  | some text => InitPartiesLoop (text.length + 2) (IStream.open text) [] []

/-- The constructor `PartiesList::PartiesList`: the parties are loaded from
the file. -/
def PartiesList.new (filename : Option (List Char)) : List Party :=
  InitParties filename

/-- The function `PartiesList::getParties`: the parties in the order they were stored. -/
def getParties (parties : List Party) : List Party := parties

/-! ### Randomizers.h, Randomizers.cpp -/

/-- The source of randomness and of time.  A `Randomizers` object is seeded
from `std::random_device`, so nothing is known about the values it produces
beyond the range of each distribution; the `k`-th draw is an arbitrary
function of `k` and of the parameters of the distribution. -/
structure Env where
  /-- Raw value behind the `k`-th draw when it is a uniform integer. -/
  uniform : Nat → Nat
  /-- Result of `normal_dist_(rng_)` for a mean and a deviation. -/
  normal : ℚ → ℚ → Nat → ℚ
  /-- Result of `std::bernoulli_distribution bd(p)`. -/
  bernoulli : ℚ → Nat → Bool
  /-- Result of `std::exponential_distribution<double> exp(rate)`. -/
  exponential : ℚ → Nat → ℚ
  /-- Result of `UtcIsoTimeGenerator::NowUtcIso` at the `k`-th clock read. -/
  now : Nat → List Char

/-- The class `Randomizers`: the parameters given to the constructor and the
number of draws made so far (the state of `rng_`). -/
structure Randomizers where
  mean : ℚ
  sd : ℚ
  outlier_prob_ : ℚ
  outlier_mult_mean_ : ℚ
  draws : Nat
deriving DecidableEq

/-- The constructor `Randomizers::Randomizers`; `seed` is the state the
generator gets from `std::random_device`, here the number of draws made
before. -/
def Randomizers.new (mean sd outlier_prob outlier_mult_mean : ℚ) (seed : Nat) : Randomizers :=
  { mean := mean, sd := sd, outlier_prob_ := outlier_prob,
    outlier_mult_mean_ := outlier_mult_mean, draws := seed }

/-- The function `Randomizers::RandomUniformInt(start, end)`: a value of the closed range
`[start, end]`, obtained from the raw draw by reduction into the range, so
that every value of the range can be produced and no other. -/
def RandomUniformInt (env : Env) (r : Randomizers) (start end_ : Nat) :
    Nat × Randomizers :=
  (start + env.uniform r.draws % (end_ - start + 1), { r with draws := r.draws + 1 })

/-- Modelled from the spec: `clamp.cpp`, which both `Randomizers.cpp` and
`TransactionGenerator.cpp` include, is not among the sources.  The spec says
"Clamp `x` to the closed interval `[0.01, 1e9]`". -/
def clamp (x lo hi : ℚ) : ℚ :=
  if x < lo then lo else if hi < x then hi else x

/-- The function `Randomizers::NormalDistWithNoize`. -/
def NormalDistWithNoize (env : Env) (r : Randomizers) : ℚ × Randomizers :=
  let x := env.normal r.mean r.sd r.draws
  let r := { r with draws := r.draws + 1 }
  let bd := env.bernoulli r.outlier_prob_ r.draws
  let r := { r with draws := r.draws + 1 }
  if bd then
    let e := env.exponential (1 / r.outlier_mult_mean_) r.draws
    let r := { r with draws := r.draws + 1 }
    (clamp (x * (1 + e)) (1 / 100) 1000000000, r)
  else
    (clamp x (1 / 100) 1000000000, r)

/-! ### TransactionGenerator.h, TransactionGenerator.cpp -/

/-- The function `TransactionGenerator::AppendAmountTwoDecimals`: formats into a buffer of
64 bytes and appends the buffer. -/
def AppendAmountTwoDecimals (dest : List Char) (amount : ℚ) : List Char :=
  let buf := snprintf 64 (printfFixed2 amount)
  dest ++ buf

/-- The function `TransactionGenerator::GeneratePain001Fast`.  It is a member function: it
reads the member `counter_`, the first argument here. -/
def GeneratePain001Fast (counter_ : Nat)
    (msgId timestamp debtorName debtorIBAN creditorName creditorIBAN endToEndId : List Char)
    (amount : ℚ) (currency : List Char) : List Char :=
  let xml : List Char := []
  let xml := xml ++ "<?xml version=\"1.0\" encoding=\"UTF-8\"?>\n".toList
  let xml := xml ++ "<Document xmlns=\"urn:iso:std:iso:20022:tech:xsd:pain.001.001.03\">\n".toList
  let xml := xml ++ "  <CstmrCdtTrfInitn>\n".toList
  let xml := xml ++ "    <GrpHdr>\n".toList
  let xml := xml ++ "      <MsgId>".toList
  let xml := xml ++ msgId
  let xml := xml ++ "</MsgId>\n".toList
  let xml := xml ++ "      <CreDtTm>".toList
  let xml := xml ++ timestamp
  let xml := xml ++ "</CreDtTm>\n".toList
  let xml := xml ++ "      <NbOfTxs>1</NbOfTxs>\n".toList
  let xml := xml ++ "      <CtrlSum>".toList
  let xml := AppendAmountTwoDecimals xml amount
  let xml := xml ++ "</CtrlSum>\n".toList
  let xml := xml ++ "      <InitgPty><Nm>".toList
  let xml := xml ++ debtorName
  let xml := xml ++ "</Nm></InitgPty>\n".toList
  let xml := xml ++ "    </GrpHdr>\n".toList
  let xml := xml ++ "    <PmtInf>\n".toList
  let xml := xml ++ "      <PmtInfId>PmtInf-".toList
  let xml := xml ++ to_string counter_
  let xml := xml ++ "</PmtInfId>\n".toList
  let xml := xml ++ "      <PmtMtd>TRF</PmtMtd>\n".toList
  let xml := xml ++ "      <NbOfTxs>1</NbOfTxs>\n".toList
  let xml := xml ++ "      <CtrlSum>".toList
  let xml := AppendAmountTwoDecimals xml amount
  let xml := xml ++ "</CtrlSum>\n".toList
  let xml := xml ++ "      <Dbtr><Nm>".toList
  let xml := xml ++ debtorName
  let xml := xml ++ "</Nm></Dbtr>\n".toList
  let xml := xml ++ "      <DbtrAcct><Id><IBAN>".toList
  let xml := xml ++ debtorIBAN
  let xml := xml ++ "</IBAN></Id></DbtrAcct>\n".toList
  let xml := xml ++ "      <CdtTrfTxInf>\n".toList
  let xml := xml ++ "        <PmtId><EndToEndId>".toList
  let xml := xml ++ endToEndId
  let xml := xml ++ "</EndToEndId></PmtId>\n".toList
  let xml := xml ++ "        <Amt><InstdAmt Ccy=\"".toList
  let xml := xml ++ currency
  let xml := xml ++ "\">".toList
  let xml := AppendAmountTwoDecimals xml amount
  let xml := xml ++ "</InstdAmt></Amt>\n".toList
  let xml := xml ++ "        <Cdtr><Nm>".toList
  let xml := xml ++ creditorName
  let xml := xml ++ "</Nm></Cdtr>\n".toList
  let xml := xml ++ "        <CdtrAcct><Id><IBAN>".toList
  let xml := xml ++ creditorIBAN
  let xml := xml ++ "</IBAN></Id></CdtrAcct>\n".toList
  let xml := xml ++ "      </CdtTrfTxInf>\n".toList
  let xml := xml ++ "    </PmtInf>\n".toList
  let xml := xml ++ "  </CstmrCdtTrfInitn>\n".toList
  let xml := xml ++ "</Document>\n".toList
  xml

/-- What a call has done when it is observed: it returned a value, or it
indexed the vector of parties past its end (undefined behaviour in the
source), or its loop is still running after the iterations allowed.  The two
last carry the number of random draws made by then. -/
inductive Outcome (α : Type) where
  | returned (a : α) : Outcome α
  | outOfBounds (draws : Nat) : Outcome α
  | running (draws : Nat) : Outcome α
deriving DecidableEq

/-- The state a call of the generator works on: the member `counter_`, the
number of random draws made so far and the number of clock reads. -/
structure GenState where
  counter_ : Nat
  draws : Nat
  ticks : Nat
deriving DecidableEq

/-- The constructor `TransactionGenerator::TransactionGenerator`: the member
`partiesList` is built from the file and the member `counter_` is 0. -/
def TransactionGenerator.new (partiesFile : Option (List Char)) : List Party × Nat :=
  (PartiesList.new partiesFile, 0)

/-- The value of `partiesList->getParties().size() - 1`, computed in
`size_t`. -/
def lastIndex (parties : List Party) : Nat :=
  ((getParties parties).length + 2 ^ 64 - 1) % 2 ^ 64

/-- The `do ... while (creditor->getIban() == debtor->getIban())` loop of
`GenerateRandomTransaction`, run for at most `fuel` iterations. -/
def creditorLoop (env : Env) (parties : List Party) (debtor : Party) :
    Nat → Randomizers → Outcome (Party × Randomizers)
  | 0, r => Outcome.running r.draws
  | fuel + 1, r =>
    let d := RandomUniformInt env r 0 (lastIndex parties)
    match parties[d.1]? with
    | none => Outcome.outOfBounds d.2.draws
    | some creditor =>
      if creditor.getIban = debtor.getIban then creditorLoop env parties debtor fuel d.2
      else Outcome.returned (creditor, d.2)

/-- The function `TransactionGenerator::GenerateRandomTransaction`; `parties` is the vector
`partiesList->getParties()` returns and `fuel` bounds the iterations of the
creditor loop.  The state gives the value of `counter_` before the call and
receives its value after it. -/
def GenerateRandomTransaction (env : Env) (parties : List Party) (fuel : Nat)
    (s : GenState) : Outcome (List Char × GenState) :=
  let r := Randomizers.new 1000 300 (1 / 100) 50 s.draws
  let d := RandomUniformInt env r 0 (lastIndex parties)
  match parties[d.1]? with
  | none => Outcome.outOfBounds d.2.draws
  | some debtor =>
    match creditorLoop env parties debtor fuel d.2 with
    | Outcome.outOfBounds k => Outcome.outOfBounds k
    | Outcome.running k => Outcome.running k
    | Outcome.returned (creditor, r) =>
      let a := NormalDistWithNoize env r
      let amount := a.1
      let id := (s.counter_ + 1) % 2 ^ 64
      let msgId := "MSG-".toList ++ to_string id
      let endToEnd := "E2E-".toList ++ to_string id
      let timestamp := env.now s.ticks
      Outcome.returned
        (GeneratePain001Fast id msgId timestamp debtor.getName debtor.getIban
          creditor.getName creditor.getIban endToEnd amount "EUR".toList,
         { counter_ := id, draws := a.2.draws, ticks := s.ticks + 1 })

/-- The `for` loop of `GenerateBatch` with `k` iterations left. -/
def GenerateBatchLoop (env : Env) (parties : List Party) (fuel : Nat) :
    Nat → List (List Char) → GenState → Outcome (List (List Char) × GenState)
  | 0, batch, s => Outcome.returned (batch, s)
  | k + 1, batch, s =>
    match GenerateRandomTransaction env parties fuel s with
    | Outcome.outOfBounds d => Outcome.outOfBounds d
    | Outcome.running d => Outcome.running d
    | Outcome.returned (doc, s1) => GenerateBatchLoop env parties fuel k (batch ++ [doc]) s1

/-- The function `TransactionGenerator::GenerateBatch`.  The vector `batch` is the list of
the documents pushed so far; `batch.reserve(n)` changes its capacity only,
and allocation is not modelled. -/
def GenerateBatch (env : Env) (parties : List Party) (fuel : Nat) (n : Nat)
    (s : GenState) : Outcome (List (List Char) × GenState) :=
  GenerateBatchLoop env parties fuel n [] s

/-! ### Notions used to state the properties -/

/-- The index drawn at iteration `k` (counted from 0) of the creditor loop
started with the generator `r`. -/
def drawnIndex (env : Env) (parties : List Party) (r : Randomizers) (k : Nat) : Nat :=
  (RandomUniformInt env { r with draws := r.draws + k } 0 (lastIndex parties)).1

/-- A call that ended without a document and without having made any random
draw since the state `s`: what a precondition failure raised before sampling
would look like. -/
def failsBeforeSampling {α : Type} (s : GenState) : Outcome α → Bool
  | Outcome.returned _ => false
  | Outcome.outOfBounds d => d == s.draws
  | Outcome.running d => d == s.draws

/-- The pool holds two parties with different IBANs. -/
def hasTwoDistinctIbans (parties : List Party) : Prop :=
  ∃ p ∈ parties, ∃ q ∈ parties, p.getIban ≠ q.getIban

/-- A world used in the examples: the raw uniform draw number `k` is `k`, the
normal draw is 1234.5, no outlier, the clock shows one fixed instant. -/
def sampleEnv : Env :=
  { uniform := fun k => k
    normal := fun _ _ _ => 2469 / 2
    bernoulli := fun _ _ => false
    exponential := fun _ _ => 0
    now := fun _ => "2024-01-15T10:30:00Z".toList }

/-- The pool of the golden scenario of the spec. -/
def samplePool : List Party :=
  [Party.mk "Alice".toList "IBAN1".toList, Party.mk "Bob".toList "IBAN2".toList]

/-- The parties file of the golden scenario. -/
def sampleFile : Option (List Char) := some "Alice,IBAN1\nBob,IBAN2\n".toList

/-- A pool with a single party. -/
def singlePool : List Party :=
  [Party.mk "Alice".toList "IBAN1".toList]

/-- A pool of two entries that share one IBAN. -/
def duplicatePool : List Party :=
  [Party.mk "Alice".toList "IBAN1".toList, Party.mk "Alice Ltd".toList "IBAN1".toList]

/-- The relation of `n` successive calls of `GenerateRandomTransaction`, each started in the
state the previous one left, all returned: the documents in call order and
the final state. -/
inductive CallsInOrder (env : Env) (parties : List Party) (fuel : Nat) :
    Nat → GenState → List (List Char) → GenState → Prop where
  | done (s : GenState) : CallsInOrder env parties fuel 0 s [] s
  | step {n : Nat} {s s1 s2 : GenState} {doc : List Char} {docs : List (List Char)}
      (first : GenerateRandomTransaction env parties fuel s = Outcome.returned (doc, s1))
      (others : CallsInOrder env parties fuel n s1 docs s2) :
      CallsInOrder env parties fuel (n + 1) s (doc :: docs) s2

/-- Decimal digits of a number, most significant first, by the usual
recursion. -/
def decimalDigits (n : Nat) : List Char :=
  if _h : n < 10 then [Nat.digitChar n]
  else decimalDigits (n / 10) ++ [Nat.digitChar (n % 10)]
decreasing_by omega

/-- Value of a decimal digit character. -/
def digitValue (c : Char) : Nat := c.toNat - 48

/-- Number read from a text of decimal digits. -/
def decimalValue (cs : List Char) : Nat :=
  cs.foldl (fun acc c => 10 * acc + digitValue c) 0

/-- A call a client makes on the generator. -/
inductive Call where
  | single : Call
  | batch (n : Nat) : Call

/-- Sequencing of two steps: the second runs when the first returned. -/
def Outcome.andThen {α β : Type} (o : Outcome α) (f : α → Outcome β) : Outcome β :=
  match o with
  | Outcome.returned a => f a
  | Outcome.outOfBounds d => Outcome.outOfBounds d
  | Outcome.running d => Outcome.running d

/-- One call of a client: the documents it returns and the state it leaves. -/
def performCall (env : Env) (parties : List Party) (fuel : Nat) (c : Call) (s : GenState) :
    Outcome (List (List Char) × GenState) :=
  match c with
  | Call.single =>
    (GenerateRandomTransaction env parties fuel s).andThen
      (fun r => Outcome.returned ([r.1], r.2))
  | Call.batch n => GenerateBatch env parties fuel n s

/-- A sequence of calls on one generator: all the documents produced, in
generation order, and the final state. -/
def runCalls (env : Env) (parties : List Party) (fuel : Nat) :
    List Call → GenState → Outcome (List (List Char) × GenState)
  | [], s => Outcome.returned ([], s)
  | c :: cs, s =>
    (performCall env parties fuel c s).andThen (fun r =>
      (runCalls env parties fuel cs r.2).andThen (fun t =>
        Outcome.returned (r.1 ++ t.1, t.2)))

/-- The document of the example world for the counter value `id`: Alice pays
Bob 1234.50 EUR. -/
def sampleDoc (id : Nat) : List Char :=
  GeneratePain001Fast id ("MSG-".toList ++ to_string id) "2024-01-15T10:30:00Z".toList
    "Alice".toList "IBAN1".toList "Bob".toList "IBAN2".toList
    ("E2E-".toList ++ to_string id) (2469 / 2) "EUR".toList

/-- What the body of the loop of `InitParties` does with one line: the party
it stores, if it stores one. -/
def lineParty (line : List Char) : Option Party :=
  if line.isEmpty then none
  else
    let ss := IStream.open line
    let r1 := getline ss [] ','
    if r1.1.ok then
      let r2 := getline r1.1 [] '\n'
      if r2.1.ok then some (Party.mk r1.2 r2.2) else none
    else none

/-- The text of a file made of the lines `ls`, each ended by a newline,
followed by a last piece `rest` that has no newline (empty when the file
ends with a newline or is empty). -/
def fileText (ls : List (List Char)) (rest : List Char) : List Char :=
  (ls.map (fun l => l ++ ['\n'])).flatten ++ rest

/-- The text `t` is the amount written with exactly two digits after the
decimal point: a minus sign when the amount is negative, a non-empty integer
part, a point and two digits, all decimal digits, and the number of
hundredths they spell is within half a hundredth of the amount. -/
def WrittenWithTwoDecimals (amount : ℚ) (t : List Char) : Prop :=
  ∃ (ip : List Char) (d1 d2 : Char),
    t = (if amount < 0 then ['-'] else []) ++ ip ++ ['.', d1, d2] ∧
    ip ≠ [] ∧ (∀ c ∈ ip, c.isDigit = true) ∧ d1.isDigit = true ∧ d2.isDigit = true ∧
    |(|amount| * 100 - (decimalValue (ip ++ [d1, d2]) : ℚ))| ≤ 1 / 2

/-! ### Occurrences of a text, and the subset of XML 1.0 the renderer writes -/

/-- The text `s` begins with `pat`. -/
def startsWith : List Char → List Char → Bool
  | [], _ => true
  | _ :: _, [] => false
  | p :: ps, c :: cs => p == c && startsWith ps cs

/-- Number of places of `s` at which an occurrence of `pat` begins. -/
def countOccurrences (pat : List Char) : List Char → Nat
  | [] => 0
  | c :: cs => (if startsWith pat (c :: cs) then 1 else 0) + countOccurrences pat cs

/-- The opening tag of the transaction block. -/
def openingTag : List Char := "<CdtTrfTxInf>".toList

/-- No end piece of `seg` is a proper beginning of `pat`: an occurrence of
`pat` in `seg ++ rest` lies in `seg` or in `rest`. -/
def noStraddle (pat : List Char) : List Char → Bool
  | [] => true
  | c :: cs =>
    (decide (pat.length ≤ (c :: cs).length) || !startsWith (c :: cs) pat) && noStraddle pat cs

/-- A character XML 1.0 allows in a document. -/
def xmlChar (c : Char) : Bool :=
  c == '\t' || c == '\n' || c == '\r'
    || (decide (32 ≤ c.toNat) && c.toNat != 65534 && c.toNat != 65535)

/-- White space of XML. -/
def xmlSpace (c : Char) : Bool :=
  c == ' ' || c == '\t' || c == '\n' || c == '\r'

/-- First character of a name (the ASCII part of the production). -/
def xmlNameStart (c : Char) : Bool :=
  c.isAlpha || c == '_' || c == ':'

/-- Further character of a name (the ASCII part of the production). -/
def xmlNameChar (c : Char) : Bool :=
  xmlNameStart c || c.isDigit || c == '-' || c == '.'

/-- A name of XML. -/
def xmlName : List Char → Bool
  | [] => false
  | c :: cs => xmlNameStart c && cs.all xmlNameChar

/-- Character data: allowed characters, none of them `<` or `&`, and no
occurrence of the sequence that closes a CDATA section. -/
def xmlCharData (t : List Char) : Bool :=
  t.all (fun c => xmlChar c && c != '<' && c != '&')
    && countOccurrences "]]>".toList t == 0

/-- The text of an attribute value between double quotes. -/
def xmlAttValue (v : List Char) : Bool :=
  v.all (fun c => xmlChar c && c != '<' && c != '&' && c != '"')

/-- The content of an element: character data, or character data followed by
an element (name, at most one attribute, content) and by further content. -/
inductive XmlContent where
  | text (t : List Char) : XmlContent
  | node (t : List Char) (name : List Char) (attr : Option (List Char × List Char))
      (body rest : XmlContent) : XmlContent

/-- The text of an optional attribute inside a start tag. -/
def printAttr : Option (List Char × List Char) → List Char
  | none => []
  | some (n, v) => [' '] ++ n ++ ['=', '"'] ++ v ++ ['"']

/-- The serialisation of a content. -/
def XmlContent.print : XmlContent → List Char
  | XmlContent.text t => t
  | XmlContent.node t name attr body rest =>
    t ++ ['<'] ++ name ++ printAttr attr ++ ['>'] ++ body.print
      ++ ['<', '/'] ++ name ++ ['>'] ++ rest.print

/-- An optional attribute with a proper name and value. -/
def validAttr : Option (List Char × List Char) → Bool
  | none => true
  | some (n, v) => xmlName n && xmlAttValue v

/-- All names are names, all texts are character data and all attribute
values are attribute values. -/
def XmlContent.valid : XmlContent → Bool
  | XmlContent.text t => xmlCharData t
  | XmlContent.node t name attr body rest =>
    xmlCharData t && xmlName name && validAttr attr && body.valid && rest.valid

/-- The XML declaration the renderer writes. -/
def xmlDecl : List Char := "<?xml version=\"1.0\" encoding=\"UTF-8\"?>".toList

/-- A well-formed document of the subset of XML 1.0 used here: the
declaration, white space, one root element whose tree is valid, white
space. -/
def WellFormedXml (doc : List Char) : Prop :=
  ∃ (ws1 ws2 name : List Char) (attr : Option (List Char × List Char)) (body : XmlContent),
    ws1.all xmlSpace = true ∧ ws2.all xmlSpace = true ∧
    (XmlContent.node [] name attr body (XmlContent.text [])).valid = true ∧
    doc = xmlDecl ++ ws1 ++ (XmlContent.node [] name attr body (XmlContent.text [])).print ++ ws2

/-- An element without attribute that holds a text. -/
def leaf (indent name t : List Char) (rest : XmlContent) : XmlContent :=
  XmlContent.node indent name none (XmlContent.text t) rest

/-- An element without attribute that holds elements. -/
def branch (indent name : List Char) (body rest : XmlContent) : XmlContent :=
  XmlContent.node indent name none body rest

/-- The content of the root element of the document `GeneratePain001Fast`
renders, `amt` being the text written for the amount. -/
def pain001Body (counter_ : Nat)
    (msgId timestamp debtorName debtorIBAN creditorName creditorIBAN endToEndId amt
      currency : List Char) : XmlContent :=
  let i2 := "\n  ".toList
  let i4 := "\n    ".toList
  let i6 := "\n      ".toList
  let i8 := "\n        ".toList
  let none_ := XmlContent.text []
  branch i2 "CstmrCdtTrfInitn".toList
    (branch i4 "GrpHdr".toList
      (leaf i6 "MsgId".toList msgId
      (leaf i6 "CreDtTm".toList timestamp
      (leaf i6 "NbOfTxs".toList "1".toList
      (leaf i6 "CtrlSum".toList amt
      (branch i6 "InitgPty".toList (leaf [] "Nm".toList debtorName none_)
      (XmlContent.text i4))))))
    (branch i4 "PmtInf".toList
      (leaf i6 "PmtInfId".toList ("PmtInf-".toList ++ to_string counter_)
      (leaf i6 "PmtMtd".toList "TRF".toList
      (leaf i6 "NbOfTxs".toList "1".toList
      (leaf i6 "CtrlSum".toList amt
      (branch i6 "Dbtr".toList (leaf [] "Nm".toList debtorName none_)
      (branch i6 "DbtrAcct".toList
        (branch [] "Id".toList (leaf [] "IBAN".toList debtorIBAN none_) none_)
      (branch i6 "CdtTrfTxInf".toList
        (branch i8 "PmtId".toList (leaf [] "EndToEndId".toList endToEndId none_)
        (branch i8 "Amt".toList
          (XmlContent.node [] "InstdAmt".toList (some ("Ccy".toList, currency))
            (XmlContent.text amt) none_)
        (branch i8 "Cdtr".toList (leaf [] "Nm".toList creditorName none_)
        (branch i8 "CdtrAcct".toList
          (branch [] "Id".toList (leaf [] "IBAN".toList creditorIBAN none_) none_)
        (XmlContent.text i6)))))
      (XmlContent.text i4))))))))
    (XmlContent.text i2)))
    (XmlContent.text "\n".toList)

/-- The root element of the document `GeneratePain001Fast` renders. -/
def pain001Tree (counter_ : Nat)
    (msgId timestamp debtorName debtorIBAN creditorName creditorIBAN endToEndId amt
      currency : List Char) : XmlContent :=
  XmlContent.node [] "Document".toList
    (some ("xmlns".toList, "urn:iso:std:iso:20022:tech:xsd:pain.001.001.03".toList))
    (pain001Body counter_ msgId timestamp debtorName debtorIBAN creditorName creditorIBAN
      endToEndId amt currency)
    (XmlContent.text [])

/-- Characters of the texts the renderer makes itself: the digits, the
point, the minus sign and the letters of `PmtInf`. -/
def generatedChars : List Char := "0123456789.-PmtInf".toList

/-! ## Theorems

### The creditor loop and one transaction -/

theorem lastIndex_lt (parties : List Party) (h : parties ≠ []) :
    lastIndex parties < parties.length := by
  have hpos : 0 < parties.length := List.length_pos.mpr h
  unfold lastIndex getParties
  have e : parties.length + 2 ^ 64 - 1 = (parties.length - 1) + 2 ^ 64 := by omega
  rw [e, Nat.add_mod_right]
  exact lt_of_le_of_lt (Nat.mod_le _ _) (by omega)

theorem RandomUniformInt_lt (env : Env) (parties : List Party) (r : Randomizers)
    (h : parties ≠ []) :
    (RandomUniformInt env r 0 (lastIndex parties)).1 < parties.length := by
  have h1 := lastIndex_lt parties h
  have h2 : env.uniform r.draws % (lastIndex parties + 1) < lastIndex parties + 1 :=
    Nat.mod_lt _ (Nat.succ_pos _)
  simp only [RandomUniformInt, Nat.sub_zero, Nat.zero_add]
  omega

theorem RandomUniformInt_draws (env : Env) (r : Randomizers) (a b : Nat) :
    (RandomUniformInt env r a b).2 = { r with draws := r.draws + 1 } := rfl

theorem creditorLoop_returned (env : Env) (parties : List Party) (debtor : Party) :
    ∀ (fuel : Nat) (r r1 : Randomizers) (c : Party),
      creditorLoop env parties debtor fuel r = Outcome.returned (c, r1) →
      c ∈ parties ∧ c.getIban ≠ debtor.getIban := by
  intro fuel
  induction fuel with
  | zero => intro r r1 c h; simp [creditorLoop] at h
  | succ n ih =>
    intro r r1 c h
    unfold creditorLoop at h
    simp only [] at h
    cases hg : parties[(RandomUniformInt env r 0 (lastIndex parties)).1]? with
    | none => rw [hg] at h; simp at h
    | some x =>
      rw [hg] at h
      simp only [] at h
      by_cases he : x.getIban = debtor.getIban
      · rw [if_pos he] at h
        exact ih _ _ _ h
      · rw [if_neg he] at h
        injection h with h
        injection h with h1 h2
        subst h1
        exact ⟨List.getElem?_mem hg, he⟩

theorem creditorLoop_same (env : Env) (parties : List Party) (debtor : Party)
    (hne : parties ≠ []) (hall : ∀ p ∈ parties, p.getIban = debtor.getIban) :
    ∀ (fuel : Nat) (r : Randomizers),
      creditorLoop env parties debtor fuel r = Outcome.running (r.draws + fuel) := by
  intro fuel
  induction fuel with
  | zero => intro r; simp [creditorLoop]
  | succ n ih =>
    intro r
    unfold creditorLoop
    simp only []
    have hlt := RandomUniformInt_lt env parties r hne
    rw [List.getElem?_eq_getElem hlt]
    simp only []
    rw [if_pos (hall _ (List.getElem_mem _)), ih, RandomUniformInt_draws]
    simp only []
    congr 1
    omega

theorem creditorLoop_first (env : Env) (parties : List Party) (debtor : Party) :
    ∀ (j : Nat) (r : Randomizers) (c : Party),
      (∀ k, k < j → ∀ p, parties[drawnIndex env parties r k]? = some p →
        p.getIban = debtor.getIban) →
      parties[drawnIndex env parties r j]? = some c →
      c.getIban ≠ debtor.getIban →
      ∀ fuel, j < fuel →
        creditorLoop env parties debtor fuel r
          = Outcome.returned (c, { r with draws := r.draws + j + 1 }) := by
  intro j
  induction j with
  | zero =>
    intro r c _ hc hne fuel hf
    obtain ⟨n, rfl⟩ : ∃ n, fuel = n + 1 := ⟨fuel - 1, by omega⟩
    unfold creditorLoop
    simp only [drawnIndex, Nat.add_zero] at hc
    simp only []
    rw [hc]
    simp only []
    rw [if_neg hne, RandomUniformInt_draws]
  | succ m ih =>
    intro r c hbefore hc hne fuel hf
    obtain ⟨n, rfl⟩ : ∃ n, fuel = n + 1 := ⟨fuel - 1, by omega⟩
    unfold creditorLoop
    simp only []
    have hnonempty : parties ≠ [] := by
      intro he
      subst he
      simp at hc
    have hlt := RandomUniformInt_lt env parties r hnonempty
    rw [List.getElem?_eq_getElem hlt]
    simp only []
    have h0 := hbefore 0 (Nat.succ_pos m) (parties[(RandomUniformInt env r 0 (lastIndex parties)).1])
      (by simp only [drawnIndex, Nat.add_zero]; exact List.getElem?_eq_getElem hlt)
    rw [if_pos h0, RandomUniformInt_draws]
    have hshift : ∀ k, drawnIndex env parties { r with draws := r.draws + 1 } k
        = drawnIndex env parties r (k + 1) := by
      intro k
      simp only [drawnIndex, RandomUniformInt]
      congr 3
      omega
    have := ih { r with draws := r.draws + 1 } c
      (fun k hk p hp => hbefore (k + 1) (by omega) p (by rw [← hshift]; exact hp))
      (by rw [hshift]; exact hc) hne n (by omega)
    rw [this]
    congr 2
    simp only [Randomizers.mk.injEq, true_and]
    omega

theorem GenerateRandomTransaction_returned (env : Env) (parties : List Party) (fuel : Nat)
    (s s1 : GenState) (doc : List Char)
    (h : GenerateRandomTransaction env parties fuel s = Outcome.returned (doc, s1)) :
    ∃ (debtor creditor : Party) (r : Randomizers),
      parties[(RandomUniformInt env (Randomizers.new 1000 300 (1 / 100) 50 s.draws) 0 (lastIndex parties)).1]? = some debtor ∧
      creditorLoop env parties debtor fuel
        (RandomUniformInt env (Randomizers.new 1000 300 (1 / 100) 50 s.draws) 0 (lastIndex parties)).2
        = Outcome.returned (creditor, r) ∧
      s1 = { counter_ := (s.counter_ + 1) % 2 ^ 64,
             draws := (NormalDistWithNoize env r).2.draws, ticks := s.ticks + 1 } ∧
      doc = GeneratePain001Fast ((s.counter_ + 1) % 2 ^ 64)
        ("MSG-".toList ++ to_string ((s.counter_ + 1) % 2 ^ 64)) (env.now s.ticks)
        debtor.getName debtor.getIban creditor.getName creditor.getIban
        ("E2E-".toList ++ to_string ((s.counter_ + 1) % 2 ^ 64))
        (NormalDistWithNoize env r).1 "EUR".toList := by
  unfold GenerateRandomTransaction at h
  simp only [] at h
  change (match parties[(RandomUniformInt env (Randomizers.new 1000 300 (1 / 100) 50 s.draws) 0 (lastIndex parties)).1]? with
    | none => _
    | some debtor => _) = _ at h
  cases hd : parties[(RandomUniformInt env (Randomizers.new 1000 300 (1 / 100) 50 s.draws) 0 (lastIndex parties)).1]? with
  | none => rw [hd] at h; simp at h
  | some debtor =>
    rw [hd] at h
    simp only [] at h
    cases hc : creditorLoop env parties debtor fuel
        (RandomUniformInt env (Randomizers.new 1000 300 (1 / 100) 50 s.draws) 0 (lastIndex parties)).2 with
    | outOfBounds k => rw [hc] at h; simp at h
    | running k => rw [hc] at h; simp at h
    | returned a =>
      obtain ⟨creditor, r⟩ := a
      rw [hc] at h
      simp only [] at h
      injection h with h
      injection h with h1 h2
      exact ⟨debtor, creditor, r, rfl, hc, h2.symm, h1.symm⟩

theorem GenerateRandomTransaction_counter (env : Env) (parties : List Party) (fuel : Nat)
    (s s1 : GenState) (doc : List Char)
    (h : GenerateRandomTransaction env parties fuel s = Outcome.returned (doc, s1)) :
    s1.counter_ = (s.counter_ + 1) % 2 ^ 64 := by
  obtain ⟨_, _, _, _, _, hs, _⟩ := GenerateRandomTransaction_returned env parties fuel s s1 doc h
  rw [hs]

theorem GenerateRandomTransaction_same (env : Env) (parties : List Party) (fuel : Nat)
    (s : GenState) (hne : parties ≠ [])
    (hall : ∀ p ∈ parties, ∀ q ∈ parties, p.getIban = q.getIban) :
    GenerateRandomTransaction env parties fuel s = Outcome.running (s.draws + 1 + fuel) := by
  unfold GenerateRandomTransaction
  simp only []
  change (match parties[(RandomUniformInt env (Randomizers.new 1000 300 (1 / 100) 50 s.draws) 0 (lastIndex parties)).1]? with
    | none => _
    | some debtor => _) = _
  have hlt := RandomUniformInt_lt env parties (Randomizers.new 1000 300 (1 / 100) 50 s.draws) hne
  rw [List.getElem?_eq_getElem hlt]
  simp only []
  rw [creditorLoop_same env parties _ hne
    (fun p hp => hall p hp _ (List.getElem_mem _))]
  rfl

/-- With an empty pool the first index is drawn from the whole range of
`size_t` and the vector is then indexed past its end. -/
theorem GenerateRandomTransaction_empty (env : Env) (fuel : Nat) (s : GenState) :
    GenerateRandomTransaction env [] fuel s = Outcome.outOfBounds (s.draws + 1) := by
  unfold GenerateRandomTransaction
  simp [RandomUniformInt, Randomizers.new]

/-- The text of a rendered document around the two account numbers. -/
theorem GeneratePain001Fast_accounts (counter_ : Nat)
    (msgId timestamp debtorName debtorIBAN creditorName creditorIBAN endToEndId : List Char)
    (amount : ℚ) (currency : List Char) :
    ∃ before between after_ : List Char,
      GeneratePain001Fast counter_ msgId timestamp debtorName debtorIBAN creditorName
          creditorIBAN endToEndId amount currency
        = before ++ "      <DbtrAcct><Id><IBAN>".toList ++ debtorIBAN
            ++ "</IBAN></Id></DbtrAcct>\n".toList ++ between
            ++ "        <CdtrAcct><Id><IBAN>".toList ++ creditorIBAN
            ++ "</IBAN></Id></CdtrAcct>\n".toList ++ after_ := by
  refine ⟨"<?xml version=\"1.0\" encoding=\"UTF-8\"?>\n".toList
      ++ "<Document xmlns=\"urn:iso:std:iso:20022:tech:xsd:pain.001.001.03\">\n".toList
      ++ "  <CstmrCdtTrfInitn>\n".toList ++ "    <GrpHdr>\n".toList
      ++ "      <MsgId>".toList ++ msgId ++ "</MsgId>\n".toList
      ++ "      <CreDtTm>".toList ++ timestamp ++ "</CreDtTm>\n".toList
      ++ "      <NbOfTxs>1</NbOfTxs>\n".toList
      ++ "      <CtrlSum>".toList ++ snprintf 64 (printfFixed2 amount) ++ "</CtrlSum>\n".toList
      ++ "      <InitgPty><Nm>".toList ++ debtorName ++ "</Nm></InitgPty>\n".toList
      ++ "    </GrpHdr>\n".toList ++ "    <PmtInf>\n".toList
      ++ "      <PmtInfId>PmtInf-".toList ++ to_string counter_ ++ "</PmtInfId>\n".toList
      ++ "      <PmtMtd>TRF</PmtMtd>\n".toList ++ "      <NbOfTxs>1</NbOfTxs>\n".toList
      ++ "      <CtrlSum>".toList ++ snprintf 64 (printfFixed2 amount) ++ "</CtrlSum>\n".toList
      ++ "      <Dbtr><Nm>".toList ++ debtorName ++ "</Nm></Dbtr>\n".toList,
    "      <CdtTrfTxInf>\n".toList
      ++ "        <PmtId><EndToEndId>".toList ++ endToEndId ++ "</EndToEndId></PmtId>\n".toList
      ++ "        <Amt><InstdAmt Ccy=\"".toList ++ currency ++ "\">".toList
      ++ snprintf 64 (printfFixed2 amount) ++ "</InstdAmt></Amt>\n".toList
      ++ "        <Cdtr><Nm>".toList ++ creditorName ++ "</Nm></Cdtr>\n".toList,
    "      </CdtTrfTxInf>\n".toList ++ "    </PmtInf>\n".toList
      ++ "  </CstmrCdtTrfInitn>\n".toList ++ "</Document>\n".toList, ?_⟩
  simp only [GeneratePain001Fast, AppendAmountTwoDecimals, List.append_assoc, List.nil_append]

/-- C1. Whenever `GenerateRandomTransaction` returns a document, whatever the
pool and the indices drawn, the document is rendered from a debtor and a
creditor of the pool whose IBANs differ: the IBAN written in `DbtrAcct` is
not the IBAN written in `CdtrAcct`. -/
theorem GenerateRandomTransaction_distinct_accounts (env : Env) (parties : List Party)
    (fuel : Nat) (s s1 : GenState) (doc : List Char)
    (h : GenerateRandomTransaction env parties fuel s = Outcome.returned (doc, s1)) :
    ∃ (debtor creditor : Party) (amount : ℚ),
      debtor ∈ parties ∧ creditor ∈ parties ∧ debtor.getIban ≠ creditor.getIban ∧
      doc = GeneratePain001Fast s1.counter_ ("MSG-".toList ++ to_string s1.counter_)
        (env.now s.ticks) debtor.getName debtor.getIban creditor.getName creditor.getIban
        ("E2E-".toList ++ to_string s1.counter_) amount "EUR".toList ∧
      ∃ before between after_ : List Char,
        doc = before ++ "      <DbtrAcct><Id><IBAN>".toList ++ debtor.getIban
            ++ "</IBAN></Id></DbtrAcct>\n".toList ++ between
            ++ "        <CdtrAcct><Id><IBAN>".toList ++ creditor.getIban
            ++ "</IBAN></Id></CdtrAcct>\n".toList ++ after_ := by
  obtain ⟨debtor, creditor, r, hd, hc, hs, hdoc⟩ :=
    GenerateRandomTransaction_returned env parties fuel s s1 doc h
  obtain ⟨hmem, hneq⟩ := creditorLoop_returned env parties debtor fuel _ _ _ hc
  have hcnt : s1.counter_ = (s.counter_ + 1) % 2 ^ 64 := by rw [hs]
  refine ⟨debtor, creditor, (NormalDistWithNoize env r).1, List.getElem?_mem hd, hmem,
    fun e => hneq e.symm, ?_, ?_⟩
  · rw [hcnt]; exact hdoc
  · rw [hdoc]
    exact GeneratePain001Fast_accounts _ _ _ _ _ _ _ _ _ _

/-- A run of C1: on the two-party pool the call returns, and the accounts of
the document differ. -/
theorem GenerateRandomTransaction_distinct_accounts_witness :
    ∃ (doc : List Char) (s1 : GenState),
      GenerateRandomTransaction sampleEnv samplePool 3 ⟨0, 0, 0⟩ = Outcome.returned (doc, s1) ∧
      ∃ (debtor creditor : Party) (amount : ℚ),
        debtor ∈ samplePool ∧ creditor ∈ samplePool ∧ debtor.getIban ≠ creditor.getIban ∧
        doc = GeneratePain001Fast s1.counter_ ("MSG-".toList ++ to_string s1.counter_)
          (sampleEnv.now 0) debtor.getName debtor.getIban creditor.getName creditor.getIban
          ("E2E-".toList ++ to_string s1.counter_) amount "EUR".toList ∧
        ∃ before between after_ : List Char,
          doc = before ++ "      <DbtrAcct><Id><IBAN>".toList ++ debtor.getIban
              ++ "</IBAN></Id></DbtrAcct>\n".toList ++ between
              ++ "        <CdtrAcct><Id><IBAN>".toList ++ creditor.getIban
              ++ "</IBAN></Id></CdtrAcct>\n".toList ++ after_ :=
  ⟨_, _, rfl,
    GenerateRandomTransaction_distinct_accounts sampleEnv samplePool 3 ⟨0, 0, 0⟩ _ _ rfl⟩

theorem not_hasTwoDistinctIbans_iff (parties : List Party) :
    ¬ hasTwoDistinctIbans parties ↔ ∀ p ∈ parties, ∀ q ∈ parties, p.getIban = q.getIban := by
  unfold hasTwoDistinctIbans
  constructor
  · intro h p hp q hq
    by_contra hne
    exact h ⟨p, hp, q, hq, hne⟩
  · rintro h ⟨p, hp, q, hq, hne⟩
    exact hne (h p hp q hq)

/-- C10. Termination of the creditor loop.  In a non-empty pool whose entries
all carry one IBAN the loop is still running after any number of iterations,
whatever indices are drawn, and `GenerateRandomTransaction` returns no
document.  In any pool, when the index drawn at iteration `j` is the first
whose party has an IBAN different from the debtor's, the loop exits at that
iteration with that party, for every fuel above `j`. -/
theorem creditorLoop_termination (env : Env) (parties : List Party) (debtor : Party)
    (r : Randomizers) :
    (parties ≠ [] → debtor ∈ parties →
      (∀ p ∈ parties, ∀ q ∈ parties, p.getIban = q.getIban) →
      (∀ fuel, creditorLoop env parties debtor fuel r = Outcome.running (r.draws + fuel)) ∧
      (∀ fuel s doc s1,
        GenerateRandomTransaction env parties fuel s ≠ Outcome.returned (doc, s1))) ∧
    (∀ (j : Nat) (c : Party),
      (∀ k, k < j → ∀ p, parties[drawnIndex env parties r k]? = some p →
        p.getIban = debtor.getIban) →
      parties[drawnIndex env parties r j]? = some c →
      c.getIban ≠ debtor.getIban →
      ∀ fuel, j < fuel →
        creditorLoop env parties debtor fuel r
          = Outcome.returned (c, { r with draws := r.draws + j + 1 })) := by
  refine ⟨fun hne hd hall => ⟨?_, ?_⟩, ?_⟩
  · exact fun fuel =>
      creditorLoop_same env parties debtor hne (fun p hp => hall p hp debtor hd) fuel r
  · intro fuel s doc s1 h
    rw [GenerateRandomTransaction_same env parties fuel s hne hall] at h
    cases h
  · exact fun j c => creditorLoop_first env parties debtor j r c

/-- Two runs of C10: five iterations on a pool of duplicates leave the loop
running; on the two-party pool the second index drawn is the first with
another IBAN and the loop exits there. -/
theorem creditorLoop_termination_witness :
    creditorLoop sampleEnv duplicatePool (Party.mk "Alice".toList "IBAN1".toList) 5
        (Randomizers.new 1000 300 (1 / 100) 50 1) = Outcome.running 6 ∧
    creditorLoop sampleEnv samplePool (Party.mk "Alice".toList "IBAN1".toList) 2
        (Randomizers.new 1000 300 (1 / 100) 50 0)
      = Outcome.returned (Party.mk "Bob".toList "IBAN2".toList,
          Randomizers.new 1000 300 (1 / 100) 50 2) :=
  ⟨((creditorLoop_termination sampleEnv duplicatePool (Party.mk "Alice".toList "IBAN1".toList)
        (Randomizers.new 1000 300 (1 / 100) 50 1)).1
        (by decide) (by decide) (by decide)).1 5,
   (creditorLoop_termination sampleEnv samplePool (Party.mk "Alice".toList "IBAN1".toList)
        (Randomizers.new 1000 300 (1 / 100) 50 0)).2 1 (Party.mk "Bob".toList "IBAN2".toList)
        (by
          intro k hk p hp
          obtain rfl : k = 0 := by omega
          have h0 : samplePool[drawnIndex sampleEnv samplePool
              (Randomizers.new 1000 300 (1 / 100) 50 0) 0]?
              = some (Party.mk "Alice".toList "IBAN1".toList) := by decide
          rw [h0] at hp
          injection hp with hp
          rw [← hp])
        (by decide) (by decide) 2 (by decide)⟩

/-- C6, as the code behaves. On the single-party pool, which holds no two
distinct IBANs, the call raises no precondition failure: after three
iterations it has made four draws and is still in its loop. -/
theorem GenerateRandomTransaction_single_party_samples :
    ¬ hasTwoDistinctIbans singlePool ∧
    GenerateRandomTransaction sampleEnv singlePool 3 ⟨0, 0, 0⟩ = Outcome.running 4 ∧
    failsBeforeSampling ⟨0, 0, 0⟩
      (GenerateRandomTransaction sampleEnv singlePool 3 ⟨0, 0, 0⟩) = false := by
  refine ⟨?_, by decide, by decide⟩
  rw [not_hasTwoDistinctIbans_iff]
  decide

/-- C6, amended. For a non-empty pool that holds no two distinct IBANs (a
single party in particular) `GenerateRandomTransaction` does not fail before
sampling: it draws the debtor index, then one creditor index per iteration,
and its loop never exits, so that no document is produced. -/
theorem GenerateRandomTransaction_without_distinct_ibans (env : Env) (parties : List Party)
    (fuel : Nat) (s : GenState) (hne : parties ≠ [])
    (hnot : ¬ hasTwoDistinctIbans parties) :
    GenerateRandomTransaction env parties fuel s = Outcome.running (s.draws + 1 + fuel) ∧
    failsBeforeSampling s (GenerateRandomTransaction env parties fuel s) = false := by
  have h := GenerateRandomTransaction_same env parties fuel s hne
    ((not_hasTwoDistinctIbans_iff parties).mp hnot)
  refine ⟨h, ?_⟩
  rw [h]
  simp only [failsBeforeSampling, beq_eq_false_iff_ne, ne_eq]
  omega

/-- A run of the amended C6 on the single-party pool. -/
theorem GenerateRandomTransaction_without_distinct_ibans_witness :
    singlePool ≠ [] ∧ ¬ hasTwoDistinctIbans singlePool ∧
    GenerateRandomTransaction sampleEnv singlePool 7 ⟨0, 0, 0⟩ = Outcome.running (0 + 1 + 7) ∧
    failsBeforeSampling ⟨0, 0, 0⟩
      (GenerateRandomTransaction sampleEnv singlePool 7 ⟨0, 0, 0⟩) = false :=
  ⟨by decide, by rw [not_hasTwoDistinctIbans_iff]; decide,
   GenerateRandomTransaction_without_distinct_ibans sampleEnv singlePool 7 ⟨0, 0, 0⟩
     (by decide) (by rw [not_hasTwoDistinctIbans_iff]; decide)⟩

theorem GenerateBatchLoop_iff (env : Env) (parties : List Party) (fuel : Nat) :
    ∀ (k : Nat) (batch : List (List Char)) (s : GenState) (out : List (List Char))
      (s2 : GenState),
      GenerateBatchLoop env parties fuel k batch s = Outcome.returned (out, s2) ↔
        ∃ docs, out = batch ++ docs ∧ CallsInOrder env parties fuel k s docs s2 := by
  intro k
  induction k with
  | zero =>
    intro batch s out s2
    simp only [GenerateBatchLoop, Outcome.returned.injEq, Prod.mk.injEq]
    constructor
    · rintro ⟨h1, h2⟩
      exact ⟨[], by simp [h1], h2 ▸ CallsInOrder.done s⟩
    · rintro ⟨docs, h1, h2⟩
      cases h2
      simp [h1]
  | succ n ih =>
    intro batch s out s2
    unfold GenerateBatchLoop
    cases hg : GenerateRandomTransaction env parties fuel s with
    | outOfBounds d =>
      simp only []
      constructor
      · intro h; cases h
      · rintro ⟨docs, _, h2⟩
        cases h2 with
        | step first _ => rw [hg] at first; cases first
    | running d =>
      simp only []
      constructor
      · intro h; cases h
      · rintro ⟨docs, _, h2⟩
        cases h2 with
        | step first _ => rw [hg] at first; cases first
    | returned a =>
      obtain ⟨doc, s1⟩ := a
      simp only []
      rw [ih]
      constructor
      · rintro ⟨docs, h1, h2⟩
        exact ⟨doc :: docs, by simp [h1], CallsInOrder.step hg h2⟩
      · rintro ⟨docs, h1, h2⟩
        cases h2 with
        | step first others =>
          rw [hg] at first
          injection first with first
          injection first with e1 e2
          subst e1 e2
          exact ⟨_, by simp [h1], others⟩

theorem CallsInOrder_length (env : Env) (parties : List Party) (fuel : Nat) :
    ∀ (n : Nat) (s : GenState) (docs : List (List Char)) (s2 : GenState),
      CallsInOrder env parties fuel n s docs s2 →
      docs.length = n ∧ s2.counter_ % 2 ^ 64 = (s.counter_ + n) % 2 ^ 64 ∧
      s2.ticks = s.ticks + n := by
  intro n s docs s2 h
  induction h with
  | done s => simp
  | step first _ ih =>
    obtain ⟨h1, h2, h3⟩ := ih
    have hc := GenerateRandomTransaction_counter env parties fuel _ _ _ first
    obtain ⟨_, _, _, _, _, hs, _⟩ := GenerateRandomTransaction_returned env parties fuel _ _ _ first
    refine ⟨by simp [h1], ?_, ?_⟩
    · rw [h2, hc, Nat.mod_add_mod]
      congr 1
      omega
    · rw [h3, hs]
      simp only []
      omega

theorem toDigitsCore_append (fuel : Nat) :
    ∀ (n : Nat) (ds : List Char),
      Nat.toDigitsCore 10 fuel n ds = Nat.toDigitsCore 10 fuel n [] ++ ds := by
  induction fuel with
  | zero => intro n ds; simp [Nat.toDigitsCore]
  | succ f ih =>
    intro n ds
    simp only [Nat.toDigitsCore]
    by_cases h : n / 10 = 0
    · simp [h]
    · simp only [h, if_false]
      rw [ih (n / 10) (Nat.digitChar (n % 10) :: ds), ih (n / 10) [Nat.digitChar (n % 10)]]
      simp

theorem toDigitsCore_eq_decimalDigits (fuel : Nat) :
    ∀ n, n < fuel → Nat.toDigitsCore 10 fuel n [] = decimalDigits n := by
  induction fuel with
  | zero => intro n h; omega
  | succ f ih =>
    intro n hn
    simp only [Nat.toDigitsCore]
    rw [decimalDigits]
    by_cases h : n / 10 = 0
    · have hlt : n < 10 := by omega
      simp [h, hlt, Nat.mod_eq_of_lt hlt]
    · have hge : ¬ n < 10 := by omega
      simp only [h, if_false, hge, dif_neg, not_false_eq_true]
      rw [toDigitsCore_append, ih (n / 10) (by omega)]

theorem to_string_eq_decimalDigits (n : Nat) : to_string n = decimalDigits n := by
  unfold to_string Nat.toDigits
  exact toDigitsCore_eq_decimalDigits (n + 1) n (Nat.lt_succ_self n)

theorem digitChar_isDigit (d : Nat) (h : d < 10) :
    (Nat.digitChar d).isDigit = true ∧ digitValue (Nat.digitChar d) = d := by
  interval_cases d <;> exact ⟨rfl, rfl⟩

theorem decimalDigits_isDigit (n : Nat) : ∀ c ∈ decimalDigits n, c.isDigit = true := by
  induction n using Nat.strong_induction_on with
  | _ n ih =>
    intro c hc
    rw [decimalDigits] at hc
    by_cases h : n < 10
    · simp only [h, dif_pos, List.mem_singleton] at hc
      rw [hc]
      exact (digitChar_isDigit n h).1
    · simp only [h, dif_neg, not_false_eq_true, List.mem_append, List.mem_singleton] at hc
      rcases hc with hc | hc
      · exact ih (n / 10) (by omega) c hc
      · rw [hc]
        exact (digitChar_isDigit _ (Nat.mod_lt _ (by norm_num))).1

theorem decimalValue_append_singleton (cs : List Char) (c : Char) :
    decimalValue (cs ++ [c]) = 10 * decimalValue cs + digitValue c := by
  simp [decimalValue, List.foldl_append]

theorem decimalValue_decimalDigits (n : Nat) : decimalValue (decimalDigits n) = n := by
  induction n using Nat.strong_induction_on with
  | _ n ih =>
    rw [decimalDigits]
    by_cases h : n < 10
    · simp only [h, dif_pos]
      simp [decimalValue, (digitChar_isDigit n h).2]
    · simp only [h, dif_neg, not_false_eq_true]
      rw [decimalValue_append_singleton, ih (n / 10) (by omega),
        (digitChar_isDigit _ (Nat.mod_lt _ (by norm_num))).2]
      omega

theorem decimalDigits_ne_nil (n : Nat) : decimalDigits n ≠ [] := by
  rw [decimalDigits]
  by_cases h : n < 10 <;> simp [h]

theorem decimalDigits_length_le (k : Nat) :
    ∀ n, n < 10 ^ (k + 1) → (decimalDigits n).length ≤ k + 1 := by
  induction k with
  | zero =>
    intro n hn
    rw [decimalDigits]
    have h : n < 10 := by simpa using hn
    simp [h]
  | succ k ih =>
    intro n hn
    rw [decimalDigits]
    by_cases h : n < 10
    · simp [h]
    · simp only [h, dif_neg, not_false_eq_true, List.length_append, List.length_singleton]
      have : n / 10 < 10 ^ (k + 1) := by
        rw [Nat.div_lt_iff_lt_mul (by norm_num)]
        rw [pow_succ] at hn
        exact hn
      have := ih (n / 10) this
      omega

theorem to_string_injective (m n : Nat) (h : to_string m = to_string n) : m = n := by
  rw [to_string_eq_decimalDigits, to_string_eq_decimalDigits] at h
  have := congrArg decimalValue h
  rwa [decimalValue_decimalDigits, decimalValue_decimalDigits] at this

/-! ### Sequences of calls and identifiers -/

theorem Outcome.andThen_returned {α β : Type} (o : Outcome α) (f : α → Outcome β) (b : β)
    (h : o.andThen f = Outcome.returned b) :
    ∃ a, o = Outcome.returned a ∧ f a = Outcome.returned b := by
  cases o with
  | returned a => exact ⟨a, rfl, h⟩
  | outOfBounds d => cases h
  | running d => cases h

theorem CallsInOrder_append (env : Env) (parties : List Party) (fuel : Nat) :
    ∀ (n : Nat) (s : GenState) (d1 : List (List Char)) (s1 : GenState),
      CallsInOrder env parties fuel n s d1 s1 →
      ∀ (m : Nat) (d2 : List (List Char)) (s2 : GenState),
        CallsInOrder env parties fuel m s1 d2 s2 →
        CallsInOrder env parties fuel (n + m) s (d1 ++ d2) s2 := by
  intro n s d1 s1 h
  induction h with
  | done s => intro m d2 s2 h2; simpa using h2
  | @step k _ _ _ _ _ first _ ih =>
    intro m d2 s2 h2
    have := CallsInOrder.step first (ih m d2 s2 h2)
    rw [show k + 1 + m = k + m + 1 by omega]
    simpa using this

theorem runCalls_callsInOrder (env : Env) (parties : List Party) (fuel : Nat) :
    ∀ (calls : List Call) (s : GenState) (docs : List (List Char)) (s2 : GenState),
      runCalls env parties fuel calls s = Outcome.returned (docs, s2) →
      CallsInOrder env parties fuel docs.length s docs s2 := by
  intro calls
  induction calls with
  | nil =>
    intro s docs s2 h
    simp only [runCalls, Outcome.returned.injEq, Prod.mk.injEq] at h
    obtain ⟨h1, h2⟩ := h
    subst h1 h2
    exact CallsInOrder.done s
  | cons c cs ih =>
    intro s docs s2 h
    unfold runCalls at h
    obtain ⟨⟨d1, s1⟩, hp, h⟩ := Outcome.andThen_returned _ _ _ h
    obtain ⟨⟨d2, s3⟩, hr, h⟩ := Outcome.andThen_returned _ _ _ h
    simp only [Outcome.returned.injEq, Prod.mk.injEq] at h
    obtain ⟨h1, h2⟩ := h
    subst h1 h2
    have hrest := ih s1 d2 s3 hr
    have hfirst : CallsInOrder env parties fuel d1.length s d1 s1 := by
      cases c with
      | single =>
        unfold performCall at hp
        obtain ⟨⟨doc, s4⟩, hg, hp⟩ := Outcome.andThen_returned _ _ _ hp
        simp only [Outcome.returned.injEq, Prod.mk.injEq] at hp
        obtain ⟨h1, h2⟩ := hp
        subst h1 h2
        exact CallsInOrder.step hg (CallsInOrder.done _)
      | batch n =>
        unfold performCall at hp
        unfold GenerateBatch at hp
        rw [GenerateBatchLoop_iff] at hp
        obtain ⟨docs, h1, h2⟩ := hp
        simp only [List.nil_append] at h1
        subst h1
        have := (CallsInOrder_length env parties fuel n s _ _ h2).1
        rw [this]
        exact h2
    have := CallsInOrder_append env parties fuel _ s d1 s1 hfirst _ d2 s3 hrest
    simpa using this

theorem CallsInOrder_nth (env : Env) (parties : List Party) (fuel : Nat) :
    ∀ (n : Nat) (s : GenState) (docs : List (List Char)) (s2 : GenState),
      CallsInOrder env parties fuel n s docs s2 →
      ∀ i, i < docs.length →
        ∃ (debtor creditor : Party) (amount : ℚ),
          docs[i]? = some (GeneratePain001Fast ((s.counter_ + i + 1) % 2 ^ 64)
            ("MSG-".toList ++ to_string ((s.counter_ + i + 1) % 2 ^ 64)) (env.now (s.ticks + i))
            debtor.getName debtor.getIban creditor.getName creditor.getIban
            ("E2E-".toList ++ to_string ((s.counter_ + i + 1) % 2 ^ 64)) amount
            "EUR".toList) := by
  intro n s docs s2 h
  induction h with
  | done s => intro i hi; simp at hi
  | @step k s s1 s3 doc docs first _ ih =>
    intro i hi
    obtain ⟨debtor, creditor, r, _, _, hs, hdoc⟩ :=
      GenerateRandomTransaction_returned env parties fuel _ _ _ first
    cases i with
    | zero =>
      refine ⟨debtor, creditor, (NormalDistWithNoize env r).1, ?_⟩
      simp only [List.getElem?_cons_zero, Nat.add_zero]
      rw [hdoc]
    | succ j =>
      obtain ⟨d, c, a, hj⟩ := ih j (by simpa using hi)
      refine ⟨d, c, a, ?_⟩
      simp only [List.getElem?_cons_succ]
      rw [hj, hs]
      simp only []
      have e : ((s.counter_ + 1) % 2 ^ 64 + j + 1) % 2 ^ 64 = (s.counter_ + (j + 1) + 1) % 2 ^ 64 := by
        omega
      have e2 : s.ticks + 1 + j = s.ticks + (j + 1) := by omega
      rw [e, e2]

theorem sample_step (c t k : Nat) :
    GenerateRandomTransaction sampleEnv samplePool 1 ⟨c, 4 * t, k⟩
      = Outcome.returned (sampleDoc ((c + 1) % 2 ^ 64), ⟨(c + 1) % 2 ^ 64, 4 * t + 4, k + 1⟩) := by
  have hl : lastIndex samplePool = 1 := by decide
  have h0 : (4 * t) % 2 = 0 := by omega
  have h1 : (4 * t + 1) % 2 = 1 := by omega
  have hclamp : clamp (2469 / 2) (1 / 100) 1000000000 = 2469 / 2 := by norm_num [clamp]
  have hd : (RandomUniformInt sampleEnv (Randomizers.new 1000 300 (1 / 100) 50 (4 * t)) 0
      (lastIndex samplePool)) = (0, Randomizers.new 1000 300 (1 / 100) 50 (4 * t + 1)) := by
    simp [RandomUniformInt, hl, sampleEnv, Randomizers.new, h0]
  have hc : (RandomUniformInt sampleEnv (Randomizers.new 1000 300 (1 / 100) 50 (4 * t + 1)) 0
      (lastIndex samplePool)) = (1, Randomizers.new 1000 300 (1 / 100) 50 (4 * t + 2)) := by
    simp [RandomUniformInt, hl, sampleEnv, Randomizers.new, h1]
  have hn : NormalDistWithNoize sampleEnv (Randomizers.new 1000 300 (1 / 100) 50 (4 * t + 2))
      = (2469 / 2, Randomizers.new 1000 300 (1 / 100) 50 (4 * t + 4)) := by
    simp only [NormalDistWithNoize, sampleEnv, Randomizers.new, hclamp]
    simp
  unfold GenerateRandomTransaction
  simp only [hd]
  have ha : samplePool[0]? = some (Party.mk "Alice".toList "IBAN1".toList) := rfl
  rw [ha]
  simp only []
  unfold creditorLoop
  simp only [hc]
  have hb : samplePool[1]? = some (Party.mk "Bob".toList "IBAN2".toList) := rfl
  rw [hb]
  simp only []
  rw [if_neg (by decide)]
  simp only [hn]
  rfl

theorem sample_run :
    ∀ (n c t k : Nat), ∃ s2,
      runCalls sampleEnv samplePool 1 (List.replicate n Call.single) ⟨c, 4 * t, k⟩
        = Outcome.returned
            ((List.range n).map (fun i => sampleDoc ((c + i + 1) % 2 ^ 64)), s2) := by
  intro n
  induction n with
  | zero => intro c t k; exact ⟨_, rfl⟩
  | succ m ih =>
    intro c t k
    obtain ⟨s2, h⟩ := ih ((c + 1) % 2 ^ 64) (t + 1) (k + 1)
    refine ⟨s2, ?_⟩
    rw [List.replicate_succ]
    unfold runCalls
    unfold performCall
    rw [sample_step]
    simp only [Outcome.andThen]
    rw [show 4 * t + 4 = 4 * (t + 1) by ring, h]
    simp only [Outcome.andThen]
    rw [List.range_succ_eq_map, List.map_cons, List.map_map]
    simp only [List.singleton_append, Nat.add_zero]
    have hfun : (fun i => sampleDoc (((c + 1) % 2 ^ 64 + i + 1) % 2 ^ 64))
        = ((fun i => sampleDoc ((c + i + 1) % 2 ^ 64)) ∘ Nat.succ) := by
      funext i
      have e : ((c + 1) % 2 ^ 64 + i + 1) % 2 ^ 64 = (c + (i + 1) + 1) % 2 ^ 64 := by omega
      simp only [Function.comp, Nat.succ_eq_add_one, e]
    rw [hfun]

/-- C3, as the code behaves. The counter is a `uint64_t`: after `2 ^ 64`
transactions it is 0 again.  In a run of `2 ^ 64 + 1` calls that starts with
the counter at 0, transaction number `2 ^ 64` carries the suffix 0 and
transaction number `2 ^ 64 + 1` carries the suffix 1, which the first one
carries too. -/
theorem runCalls_identifier_repeats :
    ∃ (docs : List (List Char)) (s2 : GenState),
      runCalls sampleEnv (TransactionGenerator.new sampleFile).1 1
          (List.replicate (2 ^ 64 + 1) Call.single)
          ⟨(TransactionGenerator.new sampleFile).2, 0, 0⟩
        = Outcome.returned (docs, s2) ∧
      docs[0]? = some (sampleDoc 1) ∧
      docs[2 ^ 64 - 1]? = some (sampleDoc 0) ∧
      docs[2 ^ 64]? = some (sampleDoc 1) := by
  have hpool : (TransactionGenerator.new sampleFile).1 = samplePool := by decide
  have hcnt : (TransactionGenerator.new sampleFile).2 = 0 := rfl
  obtain ⟨s2, h⟩ := sample_run (2 ^ 64 + 1) 0 0 0
  rw [hpool, hcnt]
  refine ⟨_, s2, h, ?_, ?_, ?_⟩
  · rw [List.getElem?_map, List.getElem?_range (by norm_num)]
    rfl
  · rw [List.getElem?_map, List.getElem?_range (by norm_num)]
    simp only [Option.map_some']
    norm_num
  · rw [List.getElem?_map, List.getElem?_range (by norm_num)]
    simp only [Option.map_some']
    norm_num

/-- C3, amended. In any sequence of `GenerateRandomTransaction` and
`GenerateBatch` calls on a generator whose counter starts at 0, the `i`-th
transaction produced carries the suffix `i` in `MsgId` and in `EndToEndId`,
for every `i` below `2 ^ 64`; among these transactions the suffixes increase
strictly with the generation order and their texts are pairwise different. -/
theorem runCalls_identifiers (env : Env) (parties : List Party) (fuel : Nat)
    (calls : List Call) (s s2 : GenState) (docs : List (List Char))
    (h0 : s.counter_ = 0)
    (h : runCalls env parties fuel calls s = Outcome.returned (docs, s2)) :
    (∀ i, i < docs.length → i + 1 < 2 ^ 64 →
      ∃ (debtor creditor : Party) (amount : ℚ),
        docs[i]? = some (GeneratePain001Fast (i + 1)
          ("MSG-".toList ++ to_string (i + 1)) (env.now (s.ticks + i))
          debtor.getName debtor.getIban creditor.getName creditor.getIban
          ("E2E-".toList ++ to_string (i + 1)) amount "EUR".toList)) ∧
    (∀ i j, i < j → j < docs.length → j + 1 < 2 ^ 64 →
      i + 1 < j + 1 ∧ to_string (i + 1) ≠ to_string (j + 1)) := by
  constructor
  · intro i hi hb
    have hc := runCalls_callsInOrder env parties fuel calls s docs s2 h
    obtain ⟨d, c, a, hd⟩ := CallsInOrder_nth env parties fuel _ s docs s2 hc i hi
    rw [h0, Nat.zero_add, Nat.mod_eq_of_lt hb] at hd
    exact ⟨d, c, a, hd⟩
  · intro i j hij _ _
    refine ⟨by omega, fun e => ?_⟩
    have := to_string_injective _ _ e
    omega

/-- A run of the amended C3: one single call and a batch of two produce the
documents numbered 1, 2 and 3. -/
theorem runCalls_identifiers_witness :
    ∃ (docs : List (List Char)) (s2 : GenState),
      runCalls sampleEnv (TransactionGenerator.new sampleFile).1 3
          [Call.single, Call.batch 2] ⟨(TransactionGenerator.new sampleFile).2, 0, 0⟩
        = Outcome.returned (docs, s2) ∧
      docs.length = 3 ∧
      (∀ i, i < docs.length → i + 1 < 2 ^ 64 →
        ∃ (debtor creditor : Party) (amount : ℚ),
          docs[i]? = some (GeneratePain001Fast (i + 1)
            ("MSG-".toList ++ to_string (i + 1)) (sampleEnv.now (0 + i))
            debtor.getName debtor.getIban creditor.getName creditor.getIban
            ("E2E-".toList ++ to_string (i + 1)) amount "EUR".toList)) :=
  ⟨_, _, rfl, rfl,
    (runCalls_identifiers sampleEnv (TransactionGenerator.new sampleFile).1 3
      [Call.single, Call.batch 2] ⟨(TransactionGenerator.new sampleFile).2, 0, 0⟩ _ _
      rfl rfl).1⟩

/-! ### The amount sampler -/

theorem clamp_range (x lo hi : ℚ) (h : lo ≤ hi) : lo ≤ clamp x lo hi ∧ clamp x lo hi ≤ hi := by
  unfold clamp
  split_ifs with h1 h2
  · exact ⟨le_refl _, h⟩
  · exact ⟨h, le_refl _⟩
  · exact ⟨not_lt.mp h1, not_lt.mp h2⟩

/-- C2. Whatever the configuration of the sampler and whatever the draws of
its generator, on the outlier branch as on the other one, the amount
`NormalDistWithNoize` returns lies between 0.01 and 1e9. -/
theorem NormalDistWithNoize_range (env : Env) (r : Randomizers) :
    1 / 100 ≤ (NormalDistWithNoize env r).1 ∧ (NormalDistWithNoize env r).1 ≤ 1000000000 := by
  unfold NormalDistWithNoize
  simp only []
  split_ifs
  · exact clamp_range _ _ _ (by norm_num)
  · exact clamp_range _ _ _ (by norm_num)

/-! ### The renderer and the counter -/

theorem GeneratePain001Fast_eq_iff (c1 c2 : Nat)
    (msgId timestamp debtorName debtorIBAN creditorName creditorIBAN endToEndId : List Char)
    (amount : ℚ) (currency : List Char) :
    GeneratePain001Fast c1 msgId timestamp debtorName debtorIBAN creditorName creditorIBAN
        endToEndId amount currency
      = GeneratePain001Fast c2 msgId timestamp debtorName debtorIBAN creditorName creditorIBAN
        endToEndId amount currency
    ↔ c1 = c2 := by
  constructor
  · intro h
    simp only [GeneratePain001Fast, AppendAmountTwoDecimals, List.append_assoc,
      List.nil_append, List.append_cancel_left_eq] at h
    exact to_string_injective _ _ (List.append_cancel_right h)
  · intro h
    rw [h]

/-- C5, amended. The renderer is a function of its arguments and of the
member `counter_`, which it writes in `PmtInfId`: with equal arguments, two
invocations return the same text exactly when the counter holds the same
value at both. -/
theorem GeneratePain001Fast_counter (c1 c2 : Nat)
    (msgId timestamp debtorName debtorIBAN creditorName creditorIBAN endToEndId : List Char)
    (amount : ℚ) (currency : List Char) :
    GeneratePain001Fast c1 msgId timestamp debtorName debtorIBAN creditorName creditorIBAN
        endToEndId amount currency
      = GeneratePain001Fast c2 msgId timestamp debtorName debtorIBAN creditorName creditorIBAN
        endToEndId amount currency
    ↔ c1 = c2 :=
  GeneratePain001Fast_eq_iff c1 c2 msgId timestamp debtorName debtorIBAN creditorName
    creditorIBAN endToEndId amount currency

/-- C5, as the code behaves. The same arguments rendered while the counter
holds 1 and while it holds 2 give two different texts. -/
theorem GeneratePain001Fast_depends_on_counter :
    GeneratePain001Fast 1 "MSG-1".toList "2024-01-15T10:30:00Z".toList "Alice".toList
        "IBAN1".toList "Bob".toList "IBAN2".toList "E2E-1".toList (2469 / 2) "EUR".toList
      ≠ GeneratePain001Fast 2 "MSG-1".toList "2024-01-15T10:30:00Z".toList "Alice".toList
        "IBAN1".toList "Bob".toList "IBAN2".toList "E2E-1".toList (2469 / 2) "EUR".toList := by
  intro h
  have := (GeneratePain001Fast_eq_iff 1 2 _ _ _ _ _ _ _ _ _).mp h
  omega

/-! ### Party loading -/

theorem scanDelim_append (d : Char) (a b : List Char) (h : d ∉ a) :
    scanDelim d (a ++ d :: b) = (a, some b) := by
  induction a with
  | nil => simp [scanDelim]
  | cons c cs ih =>
    have hc : c ≠ d := fun e => h (by simp [e])
    have hcs : d ∉ cs := fun e => h (by simp [e])
    simp [scanDelim, hc, ih hcs]

theorem scanDelim_none (d : Char) (a : List Char) (h : d ∉ a) :
    scanDelim d a = (a, none) := by
  induction a with
  | nil => simp [scanDelim]
  | cons c cs ih =>
    have hc : c ≠ d := fun e => h (by simp [e])
    have hcs : d ∉ cs := fun e => h (by simp [e])
    simp [scanDelim, hc, ih hcs]

theorem split_at_first (d : Char) (l : List Char) (h : d ∈ l) :
    ∃ a b, l = a ++ d :: b ∧ d ∉ a := by
  induction l with
  | nil => simp at h
  | cons c cs ih =>
    by_cases hc : c = d
    · exact ⟨[], cs, by simp [hc], by simp⟩
    · have : d ∈ cs := by
        rcases List.mem_cons.mp h with e | e
        · exact absurd e.symm hc
        · exact e
      obtain ⟨a, b, e, hn⟩ := ih this
      refine ⟨c :: a, b, by simp [e], ?_⟩
      intro hm
      rcases List.mem_cons.mp hm with e2 | e2
      · exact hc e2.symm
      · exact hn e2

theorem lineParty_no_comma (line : List Char) (h : ',' ∉ line) : lineParty line = none := by
  unfold lineParty
  by_cases he : line.isEmpty = true
  · simp [he]
  · simp only [he, Bool.false_eq_true, if_false]
    simp only [getline, IStream.open, Bool.or_self, Bool.false_eq_true, if_false,
      scanDelim_none ',' line h]
    simp [IStream.ok, he]

theorem lineParty_comma (name rest : List Char) (h1 : ',' ∉ name)
    (h2 : '\n' ∉ rest) :
    lineParty (name ++ ',' :: rest) = if rest.isEmpty then none else some (Party.mk name rest) := by
  unfold lineParty
  have he : (name ++ ',' :: rest).isEmpty = false := by
    cases name <;> rfl
  simp only [he, Bool.false_eq_true, if_false]
  simp only [getline, IStream.open, Bool.or_self, Bool.false_eq_true, if_false,
    scanDelim_append ',' name rest h1, scanDelim_none '\n' rest h2, IStream.ok, Bool.not_false,
    if_true]
  cases rest <;> simp

theorem InitPartiesLoop_step (gas : Nat) (file : IStream) (line : List Char)
    (parties : List Party) :
    InitPartiesLoop (gas + 1) file line parties
      = if (getline file line '\n').1.ok then
          InitPartiesLoop gas (getline file line '\n').1 (getline file line '\n').2
            (parties ++ (lineParty (getline file line '\n').2).toList)
        else parties := by
  rw [InitPartiesLoop]
  unfold lineParty
  simp only []
  split_ifs <;> simp

theorem getline_newline_line (l text line0 : List Char) (hl : '\n' ∉ l) :
    getline { buf := l ++ '\n' :: text, eofbit := false, failbit := false } line0 '\n'
      = ({ buf := text, eofbit := false, failbit := false }, l) := by
  simp [getline, scanDelim_append '\n' l text hl]

theorem getline_newline_rest (rest line0 : List Char) (hr : '\n' ∉ rest) :
    getline { buf := rest, eofbit := false, failbit := false } line0 '\n'
      = ({ buf := [], eofbit := true, failbit := rest.isEmpty }, rest) := by
  simp [getline, scanDelim_none '\n' rest hr]

theorem InitPartiesLoop_last (gas : Nat) (rest line0 : List Char) (parties : List Party)
    (hr : '\n' ∉ rest) :
    InitPartiesLoop (gas + 2) { buf := rest, eofbit := false, failbit := false } line0 parties
      = parties ++ [rest].filterMap lineParty := by
  rw [InitPartiesLoop_step, getline_newline_rest rest line0 hr]
  cases rest with
  | nil => simp [IStream.ok, lineParty]
  | cons c cs =>
    simp only [IStream.ok, List.isEmpty_cons, Bool.not_false, if_true]
    rw [InitPartiesLoop_step]
    simp only [getline, Bool.true_or, if_true, IStream.ok, Bool.not_true, Bool.false_eq_true,
      if_false]
    cases h : lineParty (c :: cs) <;> simp [h]

theorem InitPartiesLoop_lines :
    ∀ (ls : List (List Char)) (rest line0 : List Char) (parties : List Party) (gas : Nat),
      (∀ l ∈ ls, '\n' ∉ l) → '\n' ∉ rest →
      InitPartiesLoop (gas + ls.length + 2)
          { buf := fileText ls rest, eofbit := false, failbit := false } line0 parties
        = parties ++ (ls ++ [rest]).filterMap lineParty := by
  intro ls
  induction ls with
  | nil =>
    intro rest line0 parties gas _ hr
    simpa [fileText] using InitPartiesLoop_last gas rest line0 parties hr
  | cons l ls ih =>
    intro rest line0 parties gas hls hr
    have hl : '\n' ∉ l := hls l (by simp)
    have htext : fileText (l :: ls) rest = l ++ '\n' :: fileText ls rest := by
      simp [fileText]
    have hgas : gas + (l :: ls).length + 2 = (gas + ls.length + 2) + 1 := by
      simp only [List.length_cons]; omega
    rw [hgas, InitPartiesLoop_step, htext, getline_newline_line l _ line0 hl]
    simp only [IStream.ok, Bool.not_false, if_true]
    rw [ih rest l _ gas (fun x hx => hls x (by simp [hx])) hr]
    cases h : lineParty l <;> simp [h]

theorem length_filterMap_isSome {α β : Type} (f : α → Option β) (l : List α) :
    (l.filterMap f).length = (l.filter (fun a => (f a).isSome)).length := by
  induction l with
  | nil => rfl
  | cons a l ih =>
    cases h : f a <;> simp [List.filterMap_cons, List.filter_cons, h, ih]

theorem fileText_length (ls : List (List Char)) (rest : List Char) :
    ls.length ≤ (fileText ls rest).length := by
  induction ls with
  | nil => simp
  | cons l ls ih =>
    have : fileText (l :: ls) rest = l ++ '\n' :: fileText ls rest := by simp [fileText]
    rw [this]
    simp only [List.length_cons, List.length_append]
    omega

/-- Every text is a sequence of newline-ended lines followed by a last piece
without newline. -/
theorem exists_fileText (text : List Char) :
    ∃ (ls : List (List Char)) (rest : List Char),
      text = fileText ls rest ∧ (∀ l ∈ ls, '\n' ∉ l) ∧ '\n' ∉ rest := by
  induction text with
  | nil => exact ⟨[], [], rfl, by simp, by simp⟩
  | cons c cs ih =>
    obtain ⟨ls, rest, he, hls, hrest⟩ := ih
    by_cases hc : c = '\n'
    · refine ⟨[] :: ls, rest, ?_, ?_, hrest⟩
      · simp [fileText, he, hc]
      · intro l hl
        rcases List.mem_cons.mp hl with e | e
        · simp [e]
        · exact hls l e
    · cases ls with
      | nil =>
        refine ⟨[], c :: rest, ?_, by simp, ?_⟩
        · simp [fileText, he]
        · intro hm
          rcases List.mem_cons.mp hm with e | e
          · exact hc e.symm
          · exact hrest e
      | cons l ls0 =>
        refine ⟨(c :: l) :: ls0, rest, ?_, ?_, hrest⟩
        · simp [fileText, he]
        · intro x hx
          rcases List.mem_cons.mp hx with e | e
          · rw [e]
            intro hm
            rcases List.mem_cons.mp hm with e2 | e2
            · exact hc e2.symm
            · exact hls l (by simp) e2
          · exact hls x (by simp [e])

/-- C9. Party loading, for a file made of the lines `ls` (each ended by a
newline) and a last piece `rest` without newline.  The pool holds, in file
order, the parties of the lines that are accepted, one for each, so that its
size is the number of accepted lines.  A blank line and a line without a
comma are not accepted.  A line is accepted with the party `p` exactly when
it is the name of `p`, free of commas, then a comma, then the IBAN of `p`,
which is the whole non-empty remainder of the line. -/
theorem InitParties_lines (ls : List (List Char)) (rest : List Char)
    (hls : ∀ l ∈ ls, '\n' ∉ l) (hrest : '\n' ∉ rest) :
    InitParties (some (fileText ls rest)) = (ls ++ [rest]).filterMap lineParty ∧
    (InitParties (some (fileText ls rest))).length
      = ((ls ++ [rest]).filter (fun l => (lineParty l).isSome)).length ∧
    (∀ l, l = [] ∨ ',' ∉ l → lineParty l = none) ∧
    (∀ l p, '\n' ∉ l →
      (lineParty l = some p ↔ l = p.name ++ ',' :: p.iban ∧ ',' ∉ p.name ∧ p.iban ≠ [])) := by
  have hmain : InitParties (some (fileText ls rest)) = (ls ++ [rest]).filterMap lineParty := by
    unfold InitParties
    simp only []
    have hlen := fileText_length ls rest
    obtain ⟨g, hg⟩ : ∃ g, (fileText ls rest).length + 2 = g + ls.length + 2 :=
      ⟨(fileText ls rest).length - ls.length, by omega⟩
    rw [hg]
    have := InitPartiesLoop_lines ls rest [] [] g hls hrest
    simpa [IStream.open] using this
  refine ⟨hmain, ?_, ?_, ?_⟩
  · rw [hmain, length_filterMap_isSome]
  · rintro l (h | h)
    · subst h; rfl
    · exact lineParty_no_comma l h
  · intro l p hl
    constructor
    · intro h
      by_cases hc : ',' ∈ l
      · obtain ⟨a, b, e, ha⟩ := split_at_first ',' l hc
        have hb : '\n' ∉ b := fun hm => hl (by simp [e, hm])
        rw [e, lineParty_comma a b ha hb] at h
        by_cases hbe : b.isEmpty = true
        · simp [hbe] at h
        · simp only [hbe, Bool.false_eq_true, if_false, Option.some.injEq] at h
          subst h
          exact ⟨e, ha, fun hn => hbe (by simpa using hn)⟩
      · rw [lineParty_no_comma l hc] at h
        cases h
    · rintro ⟨e, hn, hi⟩
      have hb : '\n' ∉ p.iban := fun hm => hl (by simp [e, hm])
      rw [e, lineParty_comma p.name p.iban hn hb]
      have : p.iban.isEmpty = false := by
        cases hp : p.iban with
        | nil => exact absurd hp hi
        | cons _ _ => rfl
      simp [this]

/-- A run of C9 on a file of seven lines, the last without newline: four are
accepted; the blank line, the line without comma and the line that ends at
its comma are not. -/
theorem InitParties_lines_witness :
    InitParties (some "Alice,IBAN1\n\nBob\nCarol,\n,X\nDan,IB,AN\nEve,E".toList)
      = [Party.mk "Alice".toList "IBAN1".toList, Party.mk [] "X".toList,
         Party.mk "Dan".toList "IB,AN".toList, Party.mk "Eve".toList "E".toList] ∧
    InitParties (some (fileText ["Alice,IBAN1".toList, [], "Bob".toList, "Carol,".toList,
        ",X".toList, "Dan,IB,AN".toList] "Eve,E".toList))
      = (["Alice,IBAN1".toList, [], "Bob".toList, "Carol,".toList,
        ",X".toList, "Dan,IB,AN".toList] ++ ["Eve,E".toList]).filterMap lineParty :=
  ⟨by decide,
   (InitParties_lines ["Alice,IBAN1".toList, [], "Bob".toList, "Carol,".toList,
        ",X".toList, "Dan,IB,AN".toList] "Eve,E".toList (by decide) (by decide)).1⟩

/-! ### Amount fields -/

theorem roundHalfEven_spec (x : ℚ) (hx : 0 ≤ x) :
    0 ≤ roundHalfEven x ∧ |x - (roundHalfEven x : ℚ)| ≤ 1 / 2 := by
  have h1 : (⌊x⌋ : ℚ) ≤ x := Int.floor_le x
  have h2 : x < (⌊x⌋ : ℚ) + 1 := Int.lt_floor_add_one x
  have h3 : 0 ≤ ⌊x⌋ := Int.floor_nonneg.mpr hx
  unfold roundHalfEven
  simp only []
  split_ifs with a b c
  · refine ⟨h3, ?_⟩
    rw [abs_le]; constructor <;> linarith
  · refine ⟨by omega, ?_⟩
    push_cast
    rw [abs_le]; constructor <;> linarith
  · refine ⟨h3, ?_⟩
    rw [abs_le]; constructor <;> linarith
  · refine ⟨by omega, ?_⟩
    push_cast
    rw [abs_le]; constructor <;> linarith

theorem roundHalfEven_natCast (n : Nat) : roundHalfEven (n : ℚ) = n := by
  unfold roundHalfEven
  have : ⌊(n : ℚ)⌋ = n := Int.floor_natCast n
  simp [this]

theorem printfFixed2_cents (n : Nat) :
    printfFixed2 ((n : ℚ) / 100)
      = Nat.toDigits 10 (n / 100)
          ++ ['.', Nat.digitChar (n / 10 % 10), Nat.digitChar (n % 10)] := by
  have h0 : ¬ ((n : ℚ) / 100 < 0) := by
    have : (0 : ℚ) ≤ (n : ℚ) / 100 := by positivity
    exact not_lt.mpr this
  have h1 : |(n : ℚ) / 100| * 100 = (n : ℚ) := by
    rw [abs_of_nonneg (by positivity)]
    field_simp
  unfold printfFixed2
  simp only [h0, if_false, h1, roundHalfEven_natCast, Int.toNat_ofNat, List.nil_append]

theorem snprintf_fits (t : List Char) (h : t.length ≤ 63) : snprintf 64 t = t := by
  unfold snprintf
  exact List.take_of_length_le (by omega)

theorem printfFixed2_written (amount : ℚ) : WrittenWithTwoDecimals amount (printfFixed2 amount) := by
  obtain ⟨hr0, hr1⟩ := roundHalfEven_spec (|amount| * 100) (by positivity)
  set cents := (roundHalfEven (|amount| * 100)).toNat with hcents
  have hcast : ((cents : ℕ) : ℚ) = (roundHalfEven (|amount| * 100) : ℚ) := by
    have : ((cents : ℕ) : ℤ) = roundHalfEven (|amount| * 100) := Int.toNat_of_nonneg hr0
    exact_mod_cast this
  refine ⟨to_string (cents / 100), Nat.digitChar (cents / 10 % 10), Nat.digitChar (cents % 10),
    rfl, ?_, ?_, ?_, ?_, ?_⟩
  · rw [to_string_eq_decimalDigits]; exact decimalDigits_ne_nil _
  · rw [to_string_eq_decimalDigits]; exact decimalDigits_isDigit _
  · exact (digitChar_isDigit _ (Nat.mod_lt _ (by norm_num))).1
  · exact (digitChar_isDigit _ (Nat.mod_lt _ (by norm_num))).1
  · have hval : decimalValue (to_string (cents / 100)
        ++ [Nat.digitChar (cents / 10 % 10), Nat.digitChar (cents % 10)]) = cents := by
      have e : to_string (cents / 100)
          ++ [Nat.digitChar (cents / 10 % 10), Nat.digitChar (cents % 10)]
          = (decimalDigits (cents / 100) ++ [Nat.digitChar (cents / 10 % 10)])
            ++ [Nat.digitChar (cents % 10)] := by
        rw [to_string_eq_decimalDigits]; simp
      rw [e, decimalValue_append_singleton, decimalValue_append_singleton,
        decimalValue_decimalDigits,
        (digitChar_isDigit _ (Nat.mod_lt (cents / 10) (by norm_num))).2,
        (digitChar_isDigit _ (Nat.mod_lt cents (by norm_num))).2]
      omega
    rw [hval, hcast]
    exact hr1

theorem printfFixed2_length (amount : ℚ) (h : |amount| < 10 ^ 58) :
    (printfFixed2 amount).length ≤ 63 := by
  obtain ⟨hr0, hr1⟩ := roundHalfEven_spec (|amount| * 100) (by positivity)
  set cents := (roundHalfEven (|amount| * 100)).toNat with hcents
  have hcast : ((cents : ℕ) : ℚ) = (roundHalfEven (|amount| * 100) : ℚ) := by
    have : ((cents : ℕ) : ℤ) = roundHalfEven (|amount| * 100) := Int.toNat_of_nonneg hr0
    exact_mod_cast this
  have hlt : (cents : ℚ) < 10 ^ 61 := by
    rw [hcast]
    have := (abs_le.mp hr1).1
    linarith
  have hlt2 : cents < 10 ^ 61 := by exact_mod_cast hlt
  have hq : cents / 100 < 10 ^ (58 + 1) := by
    rw [Nat.div_lt_iff_lt_mul (by norm_num)]
    norm_num
    norm_num at hlt2
    omega
  have hlen := decimalDigits_length_le 58 _ hq
  have hunfold : printfFixed2 amount = (if amount < 0 then ['-'] else [])
      ++ to_string (cents / 100)
      ++ ['.', Nat.digitChar (cents / 10 % 10), Nat.digitChar (cents % 10)] := rfl
  rw [hunfold, to_string_eq_decimalDigits]
  simp only [List.length_append, List.length_cons, List.length_nil]
  split_ifs <;> simp <;> omega

set_option maxRecDepth 20000 in
theorem GeneratePain001Fast_eq_print (counter_ : Nat)
    (msgId timestamp debtorName debtorIBAN creditorName creditorIBAN endToEndId : List Char)
    (amount : ℚ) (currency : List Char) :
    GeneratePain001Fast counter_ msgId timestamp debtorName debtorIBAN creditorName
        creditorIBAN endToEndId amount currency
      = xmlDecl ++ "\n".toList
          ++ (pain001Tree counter_ msgId timestamp debtorName debtorIBAN creditorName
                creditorIBAN endToEndId (snprintf 64 (printfFixed2 amount)) currency).print
          ++ "\n".toList := by
  simp only [GeneratePain001Fast, AppendAmountTwoDecimals, pain001Tree, pain001Body,
    XmlContent.print, printAttr, xmlDecl, leaf, branch, List.append_assoc, List.nil_append,
    List.append_nil]
  simp only [String.toList, List.cons_append, List.nil_append]

/-- The places of a rendered document where the amount is written. -/
theorem GeneratePain001Fast_amounts (counter_ : Nat)
    (msgId timestamp debtorName debtorIBAN creditorName creditorIBAN endToEndId : List Char)
    (amount : ℚ) (currency : List Char) :
    ∃ p1 p2 p3 p4 : List Char,
      GeneratePain001Fast counter_ msgId timestamp debtorName debtorIBAN creditorName
          creditorIBAN endToEndId amount currency
        = p1 ++ "      <CtrlSum>".toList ++ snprintf 64 (printfFixed2 amount)
            ++ "</CtrlSum>\n".toList
            ++ p2 ++ "      <CtrlSum>".toList ++ snprintf 64 (printfFixed2 amount)
            ++ "</CtrlSum>\n".toList
            ++ p3 ++ "        <Amt><InstdAmt Ccy=\"".toList ++ currency ++ "\">".toList
            ++ snprintf 64 (printfFixed2 amount) ++ "</InstdAmt></Amt>\n".toList ++ p4 := by
  refine ⟨"<?xml version=\"1.0\" encoding=\"UTF-8\"?>\n".toList
      ++ "<Document xmlns=\"urn:iso:std:iso:20022:tech:xsd:pain.001.001.03\">\n".toList
      ++ "  <CstmrCdtTrfInitn>\n".toList ++ "    <GrpHdr>\n".toList
      ++ "      <MsgId>".toList ++ msgId ++ "</MsgId>\n".toList
      ++ "      <CreDtTm>".toList ++ timestamp ++ "</CreDtTm>\n".toList
      ++ "      <NbOfTxs>1</NbOfTxs>\n".toList,
    "      <InitgPty><Nm>".toList ++ debtorName ++ "</Nm></InitgPty>\n".toList
      ++ "    </GrpHdr>\n".toList ++ "    <PmtInf>\n".toList
      ++ "      <PmtInfId>PmtInf-".toList ++ to_string counter_ ++ "</PmtInfId>\n".toList
      ++ "      <PmtMtd>TRF</PmtMtd>\n".toList ++ "      <NbOfTxs>1</NbOfTxs>\n".toList,
    "      <Dbtr><Nm>".toList ++ debtorName ++ "</Nm></Dbtr>\n".toList
      ++ "      <DbtrAcct><Id><IBAN>".toList ++ debtorIBAN
      ++ "</IBAN></Id></DbtrAcct>\n".toList
      ++ "      <CdtTrfTxInf>\n".toList
      ++ "        <PmtId><EndToEndId>".toList ++ endToEndId ++ "</EndToEndId></PmtId>\n".toList,
    "        <Cdtr><Nm>".toList ++ creditorName ++ "</Nm></Cdtr>\n".toList
      ++ "        <CdtrAcct><Id><IBAN>".toList ++ creditorIBAN
      ++ "</IBAN></Id></CdtrAcct>\n".toList
      ++ "      </CdtTrfTxInf>\n".toList ++ "    </PmtInf>\n".toList
      ++ "  </CstmrCdtTrfInitn>\n".toList ++ "</Document>\n".toList, ?_⟩
  simp only [GeneratePain001Fast, AppendAmountTwoDecimals, List.append_assoc, List.nil_append]

theorem printfFixed2_length_range (amount : ℚ) (hlo : 1 / 100 ≤ amount)
    (hhi : amount ≤ 1000000000) : (printfFixed2 amount).length ≤ 13 := by
  have hpos : 0 ≤ amount := le_trans (by norm_num) hlo
  obtain ⟨hr0, hr1⟩ := roundHalfEven_spec (|amount| * 100) (by positivity)
  set cents := (roundHalfEven (|amount| * 100)).toNat with hcents
  have hcast : ((cents : ℕ) : ℚ) = (roundHalfEven (|amount| * 100) : ℚ) := by
    have : ((cents : ℕ) : ℤ) = roundHalfEven (|amount| * 100) := Int.toNat_of_nonneg hr0
    exact_mod_cast this
  have hlt : (cents : ℚ) < 100000000001 := by
    rw [hcast]
    have := (abs_le.mp hr1).1
    have hx : |amount| * 100 ≤ 100000000000 := by
      rw [abs_of_nonneg hpos]
      linarith
    linarith
  have hlt2 : cents < 100000000001 := by exact_mod_cast hlt
  have hq : cents / 100 < 10 ^ (9 + 1) := by
    rw [Nat.div_lt_iff_lt_mul (by norm_num)]
    norm_num
    omega
  have hlen := decimalDigits_length_le 9 _ hq
  have hneg : ¬ amount < 0 := not_lt.mpr hpos
  have hunfold : printfFixed2 amount = (if amount < 0 then ['-'] else [])
      ++ to_string (cents / 100)
      ++ ['.', Nat.digitChar (cents / 10 % 10), Nat.digitChar (cents % 10)] := rfl
  rw [hunfold, to_string_eq_decimalDigits, if_neg hneg]
  simp only [List.nil_append, List.length_append, List.length_cons, List.length_nil]
  omega

theorem NormalDistWithNoize_bounds (env : Env) (r : Randomizers) :
    1 / 100 ≤ (NormalDistWithNoize env r).1 ∧ (NormalDistWithNoize env r).1 ≤ 1000000000 := by
  unfold NormalDistWithNoize
  simp only []
  split_ifs
  · exact clamp_range _ _ _ (by norm_num)
  · exact clamp_range _ _ _ (by norm_num)

/-- The amount `GenerateRandomTransaction`, the only caller of the renderer,
passes to it lies between 0.01 and 1e9 (the result of `NormalDistWithNoize`,
with `clamp` as the spec describes it). -/
theorem GenerateRandomTransaction_amount_range (env : Env) (parties : List Party)
    (fuel : Nat) (s s1 : GenState) (doc : List Char)
    (h : GenerateRandomTransaction env parties fuel s = Outcome.returned (doc, s1)) :
    ∃ (debtor creditor : Party) (amount : ℚ),
      1 / 100 ≤ amount ∧ amount ≤ 1000000000 ∧
      doc = GeneratePain001Fast s1.counter_ ("MSG-".toList ++ to_string s1.counter_)
        (env.now s.ticks) debtor.getName debtor.getIban creditor.getName creditor.getIban
        ("E2E-".toList ++ to_string s1.counter_) amount "EUR".toList := by
  obtain ⟨debtor, creditor, r, _, _, hs, hdoc⟩ :=
    GenerateRandomTransaction_returned env parties fuel s s1 doc h
  have hcnt : s1.counter_ = (s.counter_ + 1) % 2 ^ 64 := by rw [hs]
  refine ⟨debtor, creditor, (NormalDistWithNoize env r).1,
    (NormalDistWithNoize_bounds env r).1, (NormalDistWithNoize_bounds env r).2, ?_⟩
  rw [hcnt]
  exact hdoc

/-- C8. For every amount passed to the renderer, that is every amount between
0.01 and 1e9 (the renderer is private and its only caller passes the clamped
result of `NormalDistWithNoize`), the two `CtrlSum` fields and the `InstdAmt`
field of the rendered document contain one and the same text, and that text
is the amount written with exactly two digits after the decimal point; it has
at most 13 characters, so the buffer of 64 bytes never cuts it. -/
theorem GeneratePain001Fast_amount_fields (counter_ : Nat)
    (msgId timestamp debtorName debtorIBAN creditorName creditorIBAN endToEndId : List Char)
    (amount : ℚ) (currency : List Char)
    (hlo : 1 / 100 ≤ amount) (hhi : amount ≤ 1000000000) :
    ∃ text p1 p2 p3 p4 : List Char,
      GeneratePain001Fast counter_ msgId timestamp debtorName debtorIBAN creditorName
          creditorIBAN endToEndId amount currency
        = p1 ++ "      <CtrlSum>".toList ++ text ++ "</CtrlSum>\n".toList
            ++ p2 ++ "      <CtrlSum>".toList ++ text ++ "</CtrlSum>\n".toList
            ++ p3 ++ "        <Amt><InstdAmt Ccy=\"".toList ++ currency ++ "\">".toList
            ++ text ++ "</InstdAmt></Amt>\n".toList ++ p4 ∧
      GeneratePain001Fast counter_ msgId timestamp debtorName debtorIBAN creditorName
          creditorIBAN endToEndId amount currency
        = xmlDecl ++ "\n".toList
            ++ (pain001Tree counter_ msgId timestamp debtorName debtorIBAN creditorName
                  creditorIBAN endToEndId text currency).print
            ++ "\n".toList ∧
      WrittenWithTwoDecimals amount text ∧ text.length ≤ 13 := by
  obtain ⟨p1, p2, p3, p4, h⟩ := GeneratePain001Fast_amounts counter_ msgId timestamp debtorName
    debtorIBAN creditorName creditorIBAN endToEndId amount currency
  have hlen := printfFixed2_length_range amount hlo hhi
  have hfit : snprintf 64 (printfFixed2 amount) = printfFixed2 amount :=
    snprintf_fits _ (by omega)
  refine ⟨snprintf 64 (printfFixed2 amount), p1, p2, p3, p4, h,
    GeneratePain001Fast_eq_print counter_ msgId timestamp debtorName debtorIBAN creditorName
      creditorIBAN endToEndId amount currency, ?_, ?_⟩
  · rw [hfit]
    exact printfFixed2_written amount
  · rw [hfit]
    exact hlen

/-- A run of C8 with the amount 1234.5. -/
theorem GeneratePain001Fast_amount_fields_witness :
    ((1 : ℚ) / 100 ≤ 2469 / 2 ∧ (2469 : ℚ) / 2 ≤ 1000000000) ∧
    ∃ text p1 p2 p3 p4 : List Char,
      GeneratePain001Fast 1 "MSG-1".toList "2024-01-15T10:30:00Z".toList "Alice".toList
          "IBAN1".toList "Bob".toList "IBAN2".toList "E2E-1".toList (2469 / 2) "EUR".toList
        = p1 ++ "      <CtrlSum>".toList ++ text ++ "</CtrlSum>\n".toList
            ++ p2 ++ "      <CtrlSum>".toList ++ text ++ "</CtrlSum>\n".toList
            ++ p3 ++ "        <Amt><InstdAmt Ccy=\"".toList ++ "EUR".toList ++ "\">".toList
            ++ text ++ "</InstdAmt></Amt>\n".toList ++ p4 ∧
      GeneratePain001Fast 1 "MSG-1".toList "2024-01-15T10:30:00Z".toList "Alice".toList
          "IBAN1".toList "Bob".toList "IBAN2".toList "E2E-1".toList (2469 / 2) "EUR".toList
        = xmlDecl ++ "\n".toList
            ++ (pain001Tree 1 "MSG-1".toList "2024-01-15T10:30:00Z".toList "Alice".toList
                  "IBAN1".toList "Bob".toList "IBAN2".toList "E2E-1".toList text
                  "EUR".toList).print
            ++ "\n".toList ∧
      WrittenWithTwoDecimals (2469 / 2) text ∧ text.length ≤ 13 :=
  ⟨⟨by norm_num, by norm_num⟩,
   GeneratePain001Fast_amount_fields 1 _ _ _ _ _ _ _ (2469 / 2) _ (by norm_num) (by norm_num)⟩

/-! ### Occurrences of the opening tag and well-formedness -/

theorem startsWith_append_of_le :
    ∀ (pat s rest : List Char), pat.length ≤ s.length →
      startsWith pat (s ++ rest) = startsWith pat s := by
  intro pat
  induction pat with
  | nil => intro s rest _; cases s <;> cases rest <;> rfl
  | cons p ps ih =>
    intro s rest h
    cases s with
    | nil => simp at h
    | cons c cs =>
      rw [List.cons_append]
      simp only [startsWith]
      rw [ih cs rest (by simpa using h)]

theorem startsWith_short :
    ∀ (pat s : List Char), s.length < pat.length → startsWith pat s = false := by
  intro pat
  induction pat with
  | nil => intro s h; simp at h
  | cons p ps ih =>
    intro s h
    cases s with
    | nil => rfl
    | cons c cs =>
      simp only [startsWith]
      rw [ih cs (by simpa using h)]
      simp

theorem startsWith_straddle :
    ∀ (pat s rest : List Char), s.length < pat.length →
      startsWith pat (s ++ rest) = true → startsWith s pat = true := by
  intro pat
  induction pat with
  | nil => intro s rest h; simp at h
  | cons p ps ih =>
    intro s rest h hs
    cases s with
    | nil => rfl
    | cons c cs =>
      simp only [List.cons_append, startsWith, Bool.and_eq_true, beq_iff_eq] at hs ⊢
      exact ⟨hs.1.symm, ih cs rest (by simpa using h) hs.2⟩

theorem countOccurrences_segment (pat : List Char) :
    ∀ (seg rest : List Char), noStraddle pat seg = true →
      countOccurrences pat (seg ++ rest) = countOccurrences pat seg + countOccurrences pat rest := by
  intro seg
  induction seg with
  | nil => intro rest _; simp [countOccurrences]
  | cons c cs ih =>
    intro rest h
    simp only [noStraddle, Bool.and_eq_true, Bool.or_eq_true, decide_eq_true_eq,
      Bool.not_eq_true'] at h
    have hstart : startsWith pat (c :: cs ++ rest) = startsWith pat (c :: cs) := by
      rcases h.1 with hle | hno
      · exact startsWith_append_of_le pat (c :: cs) rest hle
      · by_cases hlen : pat.length ≤ (c :: cs).length
        · exact startsWith_append_of_le pat (c :: cs) rest hlen
        · have hlt : (c :: cs).length < pat.length := by omega
          rw [startsWith_short pat (c :: cs) hlt]
          cases hsw : startsWith pat (c :: cs ++ rest) with
          | false => rfl
          | true =>
            have := startsWith_straddle pat (c :: cs) rest hlt hsw
            rw [hno] at this
            cases this
    have hcons : (c :: cs) ++ rest = c :: (cs ++ rest) := rfl
    rw [hcons, countOccurrences, ← hcons, hstart, ih rest h.2, countOccurrences]
    omega

theorem countOccurrences_clean (t rest : List Char) (h : ∀ c ∈ t, c ≠ '<') :
    countOccurrences openingTag (t ++ rest) = countOccurrences openingTag rest := by
  induction t with
  | nil => rfl
  | cons c cs ih =>
    have hc : c ≠ '<' := h c (by simp)
    have hc2 : ('<' == c) = false := by
      simp only [beq_eq_false_iff_ne, ne_eq]; exact fun e => hc e.symm
    have ho : openingTag = '<' :: "CdtTrfTxInf>".toList := rfl
    rw [ho] at ih ⊢
    simp only [List.cons_append, countOccurrences, startsWith, hc2, Bool.false_and,
      Bool.false_eq_true, if_false, Nat.zero_add]
    exact ih (fun x hx => h x (by simp [hx]))

theorem GeneratePain001Fast_count (counter_ : Nat)
    (msgId timestamp debtorName debtorIBAN creditorName creditorIBAN endToEndId : List Char)
    (amount : ℚ) (currency : List Char)
    (h1 : ∀ c ∈ msgId, c ≠ '<') (h2 : ∀ c ∈ timestamp, c ≠ '<')
    (h3 : ∀ c ∈ debtorName, c ≠ '<') (h4 : ∀ c ∈ debtorIBAN, c ≠ '<')
    (h5 : ∀ c ∈ creditorName, c ≠ '<') (h6 : ∀ c ∈ creditorIBAN, c ≠ '<')
    (h7 : ∀ c ∈ endToEndId, c ≠ '<') (h8 : ∀ c ∈ currency, c ≠ '<')
    (h9 : ∀ c ∈ snprintf 64 (printfFixed2 amount), c ≠ '<')
    (h10 : ∀ c ∈ to_string counter_, c ≠ '<') :
    countOccurrences openingTag
      (GeneratePain001Fast counter_ msgId timestamp debtorName debtorIBAN creditorName
        creditorIBAN endToEndId amount currency) = 1 := by
  have e1 := fun rest => countOccurrences_clean msgId rest h1
  have e2 := fun rest => countOccurrences_clean timestamp rest h2
  have e3 := fun rest => countOccurrences_clean debtorName rest h3
  have e4 := fun rest => countOccurrences_clean debtorIBAN rest h4
  have e5 := fun rest => countOccurrences_clean creditorName rest h5
  have e6 := fun rest => countOccurrences_clean creditorIBAN rest h6
  have e7 := fun rest => countOccurrences_clean endToEndId rest h7
  have e8 := fun rest => countOccurrences_clean currency rest h8
  have e9 := fun rest => countOccurrences_clean _ rest h9
  have e10 := fun rest => countOccurrences_clean _ rest h10
  simp only [GeneratePain001Fast, AppendAmountTwoDecimals, List.append_assoc, List.nil_append]
  simp (disch := decide) only [e1, e2, e3, e4, e5, e6, e7, e8, e9, e10,
    countOccurrences_segment]
  decide

theorem digitChar_mem_generatedChars (d : Nat) (h : d < 10) :
    Nat.digitChar d ∈ generatedChars := by
  interval_cases d <;> decide

theorem decimalDigits_generated (n : Nat) : ∀ c ∈ decimalDigits n, c ∈ generatedChars := by
  induction n using Nat.strong_induction_on with
  | _ n ih =>
    intro c hc
    rw [decimalDigits] at hc
    by_cases h : n < 10
    · simp only [h, dif_pos, List.mem_singleton] at hc
      rw [hc]
      exact digitChar_mem_generatedChars n h
    · simp only [h, dif_neg, not_false_eq_true, List.mem_append, List.mem_singleton] at hc
      rcases hc with hc | hc
      · exact ih (n / 10) (by omega) c hc
      · rw [hc]
        exact digitChar_mem_generatedChars _ (Nat.mod_lt _ (by norm_num))

theorem printfFixed2_generated (amount : ℚ) :
    ∀ c ∈ snprintf 64 (printfFixed2 amount), c ∈ generatedChars := by
  intro c hc
  have hc2 : c ∈ printfFixed2 amount := List.mem_of_mem_take hc
  unfold printfFixed2 at hc2
  simp only [List.mem_append, List.mem_cons, List.mem_singleton, List.not_mem_nil,
    or_false] at hc2
  rcases hc2 with (hs | hd) | hp | h1 | h2
  · split_ifs at hs
    · simp only [List.mem_singleton] at hs
      rw [hs]; decide
    · simp at hs
  · have := decimalDigits_generated _ c (by rw [← to_string_eq_decimalDigits]; exact hd)
    exact this
  · rw [hp]; decide
  · rw [h1]; exact digitChar_mem_generatedChars _ (Nat.mod_lt _ (by norm_num))
  · rw [h2]; exact digitChar_mem_generatedChars _ (Nat.mod_lt _ (by norm_num))

theorem countOccurrences_absent (p : Char) (ps : List Char) :
    ∀ t : List Char, (∀ c ∈ t, c ≠ p) → countOccurrences (p :: ps) t = 0 := by
  intro t
  induction t with
  | nil => intro _; rfl
  | cons c cs ih =>
    intro h
    have hc : (p == c) = false := by
      simp only [beq_eq_false_iff_ne, ne_eq]
      exact fun e => h c (by simp) e.symm
    simp only [countOccurrences, startsWith, hc, Bool.false_and, Bool.false_eq_true, if_false,
      Nat.zero_add]
    exact ih (fun x hx => h x (by simp [hx]))

theorem xmlCharData_generated (t : List Char) (h : ∀ c ∈ t, c ∈ generatedChars) :
    xmlCharData t = true := by
  have hall : ∀ c ∈ generatedChars,
      (xmlChar c && c != '<' && c != '&') = true ∧ c ≠ ']' ∧ c ≠ '<' := by decide
  unfold xmlCharData
  rw [Bool.and_eq_true]
  constructor
  · rw [List.all_eq_true]
    exact fun c hc => (hall c (h c hc)).1
  · have : countOccurrences "]]>".toList t = 0 :=
      countOccurrences_absent ']' _ t (fun c hc => (hall c (h c hc)).2.1)
    rw [this]
    rfl

theorem generated_ne_lt (t : List Char) (h : ∀ c ∈ t, c ∈ generatedChars) :
    ∀ c ∈ t, c ≠ '<' := by
  have hall : ∀ c ∈ generatedChars, c ≠ '<' := by decide
  exact fun c hc => hall c (h c hc)

theorem xmlCharData_ne_lt (t : List Char) (h : xmlCharData t = true) : ∀ c ∈ t, c ≠ '<' := by
  unfold xmlCharData at h
  rw [Bool.and_eq_true, List.all_eq_true] at h
  intro c hc
  have := h.1 c hc
  simp only [Bool.and_eq_true, bne_iff_ne, ne_eq] at this
  exact this.1.2

theorem xmlAttValue_ne_lt (t : List Char) (h : xmlAttValue t = true) : ∀ c ∈ t, c ≠ '<' := by
  unfold xmlAttValue at h
  rw [List.all_eq_true] at h
  intro c hc
  have := h c hc
  simp only [Bool.and_eq_true, bne_iff_ne, ne_eq] at this
  exact this.1.1.2

theorem pain001Tree_valid (counter_ : Nat)
    (msgId timestamp debtorName debtorIBAN creditorName creditorIBAN endToEndId : List Char)
    (amount : ℚ) (currency : List Char)
    (h1 : xmlCharData msgId = true) (h2 : xmlCharData timestamp = true)
    (h3 : xmlCharData debtorName = true) (h4 : xmlCharData debtorIBAN = true)
    (h5 : xmlCharData creditorName = true) (h6 : xmlCharData creditorIBAN = true)
    (h7 : xmlCharData endToEndId = true) (h8 : xmlAttValue currency = true) :
    (pain001Tree counter_ msgId timestamp debtorName debtorIBAN creditorName creditorIBAN
      endToEndId (snprintf 64 (printfFixed2 amount)) currency).valid = true := by
  have h9 : xmlCharData (snprintf 64 (printfFixed2 amount)) = true :=
    xmlCharData_generated _ (printfFixed2_generated amount)
  have h10 : xmlCharData ("PmtInf-".toList ++ to_string counter_) = true := by
    apply xmlCharData_generated
    intro c hc
    have hlit : ∀ x ∈ "PmtInf-".toList, x ∈ generatedChars := by decide
    rcases List.mem_append.mp hc with h | h
    · exact hlit c h
    · rw [to_string_eq_decimalDigits] at h
      exact decimalDigits_generated _ c h
  simp only [pain001Tree, pain001Body, leaf, branch, XmlContent.valid, validAttr, h1, h2, h3,
    h4, h5, h6, h7, h8, h9, h10, Bool.and_true, Bool.true_and]
  decide

theorem printfFixed2_sample : snprintf 64 (printfFixed2 (2469 / 2)) = "1234.50".toList := by
  have e : ((2469 : ℚ) / 2) = (((123450 : ℕ)) : ℚ) / 100 := by norm_num
  rw [e, printfFixed2_cents]
  decide

set_option maxRecDepth 100000 in
/-- C7, as the code behaves. Names are written as they are.  The parties file
may hold the line `<CdtTrfTxInf>,IBAN1`; with the party loaded from it as
debtor, the opening tag occurs three times in the rendered document. -/
theorem GeneratePain001Fast_tag_in_name :
    InitParties (some "<CdtTrfTxInf>,IBAN1\nBob,IBAN2\n".toList)
      = [Party.mk "<CdtTrfTxInf>".toList "IBAN1".toList,
         Party.mk "Bob".toList "IBAN2".toList] ∧
    countOccurrences openingTag
      (GeneratePain001Fast 1 "MSG-1".toList "2024-01-15T10:30:00Z".toList
        "<CdtTrfTxInf>".toList "IBAN1".toList "Bob".toList "IBAN2".toList "E2E-1".toList
        (2469 / 2) "EUR".toList) = 3 := by
  refine ⟨by decide, ?_⟩
  simp only [GeneratePain001Fast, AppendAmountTwoDecimals, printfFixed2_sample]
  decide

/-- C7, amended. When the seven text arguments are XML character data
(allowed characters, no `<`, no `&`, no `]]>`) and the currency is the text
of an attribute value (no `"` either), the rendered document contains
exactly one occurrence of the opening tag `<CdtTrfTxInf>` and is well-formed
XML. -/
theorem GeneratePain001Fast_well_formed (counter_ : Nat)
    (msgId timestamp debtorName debtorIBAN creditorName creditorIBAN endToEndId : List Char)
    (amount : ℚ) (currency : List Char)
    (h1 : xmlCharData msgId = true) (h2 : xmlCharData timestamp = true)
    (h3 : xmlCharData debtorName = true) (h4 : xmlCharData debtorIBAN = true)
    (h5 : xmlCharData creditorName = true) (h6 : xmlCharData creditorIBAN = true)
    (h7 : xmlCharData endToEndId = true) (h8 : xmlAttValue currency = true) :
    countOccurrences openingTag
      (GeneratePain001Fast counter_ msgId timestamp debtorName debtorIBAN creditorName
        creditorIBAN endToEndId amount currency) = 1 ∧
    WellFormedXml
      (GeneratePain001Fast counter_ msgId timestamp debtorName debtorIBAN creditorName
        creditorIBAN endToEndId amount currency) := by
  constructor
  · exact GeneratePain001Fast_count counter_ msgId timestamp debtorName debtorIBAN creditorName
      creditorIBAN endToEndId amount currency
      (xmlCharData_ne_lt _ h1) (xmlCharData_ne_lt _ h2) (xmlCharData_ne_lt _ h3)
      (xmlCharData_ne_lt _ h4) (xmlCharData_ne_lt _ h5) (xmlCharData_ne_lt _ h6)
      (xmlCharData_ne_lt _ h7) (xmlAttValue_ne_lt _ h8)
      (generated_ne_lt _ (printfFixed2_generated amount))
      (generated_ne_lt _ (by
        intro c hc
        rw [to_string_eq_decimalDigits] at hc
        exact decimalDigits_generated _ c hc))
  · exact ⟨"\n".toList, "\n".toList, "Document".toList,
      some ("xmlns".toList, "urn:iso:std:iso:20022:tech:xsd:pain.001.001.03".toList),
      pain001Body counter_ msgId timestamp debtorName debtorIBAN creditorName creditorIBAN
        endToEndId (snprintf 64 (printfFixed2 amount)) currency,
      by decide, by decide,
      pain001Tree_valid counter_ msgId timestamp debtorName debtorIBAN creditorName
        creditorIBAN endToEndId amount currency h1 h2 h3 h4 h5 h6 h7 h8,
      GeneratePain001Fast_eq_print counter_ msgId timestamp debtorName debtorIBAN creditorName
        creditorIBAN endToEndId amount currency⟩

/-- A run of the amended C7 on the document of the two-party pool. -/
theorem GeneratePain001Fast_well_formed_witness :
    countOccurrences openingTag
      (GeneratePain001Fast 1 "MSG-1".toList "2024-01-15T10:30:00Z".toList "Alice".toList
        "IBAN1".toList "Bob".toList "IBAN2".toList "E2E-1".toList (2469 / 2) "EUR".toList) = 1 ∧
    WellFormedXml
      (GeneratePain001Fast 1 "MSG-1".toList "2024-01-15T10:30:00Z".toList "Alice".toList
        "IBAN1".toList "Bob".toList "IBAN2".toList "E2E-1".toList (2469 / 2) "EUR".toList) :=
  GeneratePain001Fast_well_formed 1 "MSG-1".toList "2024-01-15T10:30:00Z".toList
    "Alice".toList "IBAN1".toList "Bob".toList "IBAN2".toList "E2E-1".toList (2469 / 2)
    "EUR".toList (by decide) (by decide) (by decide) (by decide) (by decide) (by decide)
    (by decide) (by decide)

end Iso20022
